import Mathlib

/-!
Shallow embedding of the midi2agb MIDI → GBA (m4a) track compiler
(src/midi2agb.cpp) and verification of properties of its passes:
event interpreter, track pruner, volume/velocity filter, loop/state
restorer, redundancy eliminator, bar lowering, note-order fixup,
pattern deduplicator and text emitter.

Modelling conventions:
* machine integers are Nat/Int; uint8 casts that can wrap are made
  explicit (toInt8 / intToU8);
* text payloads of text/marker/cuepoint meta events are represented by
  a pre-parsed inductive MText (the source recognises them by strncmp
  and parses the number with std::stoi; the clamping that follows the
  parse is kept in the embedding);
* fallible code (die / failed assertions / out-of-range bar table
  access) returns Option;
* double arithmetic appearing in the source is modelled by exact
  rational/integer rounding; at each use site the magnitudes involved
  make binary64 evaluation exact enough that the rounded results agree
  (noted at the definitions).
-/

namespace Midi2Agb

/-- Model of the clamp template from the source: (v < lo) ? lo : (hi < v) ? hi : v. -/
def clampI (v lo hi : Int) : Int := if v < lo then lo else if hi < v then hi else v

/-- clamp specialised to Nat operands. -/
def clampN (v lo hi : Nat) : Nat := if v < lo then lo else if hi < v then hi else v

/-- Truncating cast of an int to uint8, as done by static_cast of uint8 in the source. -/
def intToU8 (n : Int) : Nat := (n % 256).toNat

/-- Truncating cast of an int to int8, as done by static_cast of int8 in the source. -/
def toInt8 (r : Int) : Int := ((r + 128) % 256) - 128

/-- MIDI controller numbers used by the source (standard MIDI plus the
private controller namespace of midi2agb). -/
def MIDI_CC_MSB_MOD : Nat := 1

def MIDI_CC_MSB_DATA_ENTRY : Nat := 6

def MIDI_CC_MSB_VOLUME : Nat := 7

def MIDI_CC_MSB_PAN : Nat := 10

def MIDI_CC_MSB_EXPRESSION : Nat := 11

def MIDI_CC_EX_BENDR : Nat := 20

def MIDI_CC_EX_LFOS : Nat := 21

def MIDI_CC_EX_MODT : Nat := 22

def MIDI_CC_EX_TUNE : Nat := 24

def MIDI_CC_EX_LFODL : Nat := 26

def MIDI_CC_EX_LOOP : Nat := 30

def MIDI_CC_EX_PRIO : Nat := 33

def MIDI_CC_LSB_RPN : Nat := 100

def MIDI_CC_MSB_RPN : Nat := 101

def EX_LOOP_START : Nat := 100

def EX_LOOP_END : Nat := 101

def MIDI_NOTE_PARSE_INIT : Nat := 0

def MIDI_NOTE_PARSE_SHORT : Nat := 1

def MIDI_NOTE_PARSE_TIE : Nat := 2

/-- Pre-parsed payload of a text/marker/cuepoint meta event.  The source
recognises the payloads by strncmp and parses N with std::stoi; the three
meta event kinds are treated identically by the interpreter, so a single
constructor family suffices.  Payloads that match no recognised prefix
are otherText. -/
inductive MText where
  | loopStartMark
  | loopEndMark
  | modtSet (n : Int)
  | modtGlobalSet (n : Int)
  | tuneSet (n : Int)
  | lfosSet (n : Int)
  | lfosGlobalSet (n : Int)
  | lfodlSet (n : Int)
  | lfodlGlobalSet (n : Int)
  | prioSet (n : Int)
  | modscaleGlobalSet
  | otherText
  deriving DecidableEq, Repr

/-- Tagged MIDI event with absolute tick, mirroring the cppmidi event
classes used by the source.  Channel, key, velocity and controller
values are uint8 (Nat); pitch is the signed 14-bit bend value. -/
inductive MidiEv where
  | tempo (tick usPerBeat : Nat)
  | timesig (tick num denomPow : Nat)
  | text (tick : Nat) (t : MText)
  | program (tick ch prog : Nat)
  | controller (tick ch ctrl val : Nat)
  | pitchbend (tick ch : Nat) (pitch : Int)
  | noteon (tick ch key vel : Nat)
  | noteoff (tick ch key vel : Nat)
  | dummy (tick : Nat)
  deriving DecidableEq, Repr

/-- Absolute tick of an event (the ticks field shared by all cppmidi events). -/
def MidiEv.tick : MidiEv → Nat
  | .tempo t _ => t
  | .timesig t _ _ => t
  | .text t _ => t
  | .program t _ _ => t
  | .controller t _ _ _ => t
  | .pitchbend t _ _ => t
  | .noteon t _ _ _ => t
  | .noteoff t _ _ _ => t
  | .dummy t => t

/-- Channel of a channel-voice (message) event, none for meta/dummy events. -/
def MidiEv.msgChannel : MidiEv → Option Nat
  | .program _ c _ => some c
  | .controller _ c _ _ => some c
  | .pitchbend _ c _ => some c
  | .noteon _ c _ _ => some c
  | .noteoff _ c _ _ => some c
  | _ => none

/-- First channel appearing in a message event of the track, none when the
track has no message event (the source returns -1 there). -/
def trk_get_channel_num : List MidiEv → Option Nat
  | [] => none
  | e :: rest =>
    match e.msgChannel with
    | some c => some c
    | none => trk_get_channel_num rest

/-- Insertion at the std::lower_bound position of the tick comparator
(before existing events of equal tick). -/
def insertLB (e : MidiEv) : List MidiEv → List MidiEv
  | [] => [e]
  | x :: xs => if e.tick ≤ x.tick then e :: x :: xs else x :: insertLB e xs

/-- Insertion at the std::upper_bound position of the tick comparator
(after existing events of equal tick). -/
def insertUB (e : MidiEv) : List MidiEv → List MidiEv
  | [] => [e]
  | x :: xs => if e.tick < x.tick then e :: x :: xs else x :: insertUB e xs

/-- The conditional global-event command line arguments consumed by
midi_read_infile_arguments (arg_modt, arg_lfos, arg_lfodl and their
flags). -/
structure ScanArgs where
  modt : Nat := 0
  modtGlobal : Bool := false
  lfos : Nat := 0
  lfosGlobal : Bool := false
  lfodl : Nat := 0
  lfodlGlobal : Bool := false
  deriving DecidableEq, Repr

/-- Mutable state of the meta-event scan in midi_read_infile_arguments:
loop marks, the running RPN pair (shared across tracks, as in the
source), and the maximum tick seen. -/
structure ScanState where
  args : ScanArgs
  foundStart : Bool := false
  loopStart : Nat := 0
  foundEnd : Bool := false
  loopEnd : Nat := 0
  lsbRpn : Nat := 0
  msbRpn : Nat := 0
  lastEvent : Nat := 0
  deriving DecidableEq, Repr

/-- Channel test used by the directive branches of the source:
if (channel > 0).  A channel of 0 therefore fails the test even though
it is a valid detected channel. -/
def chanPos (chan : Option Nat) : Option Nat :=
  match chan with
  | some c => if 0 < c then some c else none
  | none => none

/-- Handling of one recognised text payload: either a global flag update
or the replacement of the event with a synthetic controller event on the
detected channel (kept unchanged when the channel test fails). -/
def scan_text (st : ScanState) (chan : Option Nat) (tick : Nat) (t : MText) :
    ScanState × MidiEv :=
  match t with
  | .loopStartMark => ({st with foundStart := true, loopStart := tick}, .text tick t)
  | .loopEndMark => ({st with foundEnd := true, loopEnd := tick}, .text tick t)
  | .modtSet n =>
    let v := intToU8 (clampI n 0 2)
    match chanPos chan with
    | some c => (st, .controller tick c MIDI_CC_EX_MODT v)
    | none => (st, .text tick t)
  | .modtGlobalSet n =>
    ({st with args := {st.args with modtGlobal := true, modt := intToU8 (clampI n 0 2)}},
     .text tick t)
  | .tuneSet n =>
    let v := intToU8 (clampI n (-64) 63)
    match chanPos chan with
    | some c => (st, .controller tick c MIDI_CC_EX_TUNE v)
    | none => (st, .text tick t)
  | .lfosSet n =>
    let v := intToU8 (clampI n 0 127)
    match chanPos chan with
    | some c => (st, .controller tick c MIDI_CC_EX_LFOS v)
    | none => (st, .text tick t)
  | .lfosGlobalSet n =>
    ({st with args := {st.args with lfosGlobal := true, lfos := intToU8 (clampI n 0 127)}},
     .text tick t)
  | .lfodlSet n =>
    let v := intToU8 (clampI n 0 127)
    match chanPos chan with
    | some c => (st, .controller tick c MIDI_CC_EX_LFODL v)
    | none => (st, .text tick t)
  | .lfodlGlobalSet n =>
    ({st with args := {st.args with lfodlGlobal := true, lfodl := intToU8 (clampI n 0 127)}},
     .text tick t)
  | .prioSet n =>
    let v := intToU8 (clampI n 0 127)
    match chanPos chan with
    | some c => (st, .controller tick c MIDI_CC_EX_PRIO v)
    | none => (st, .text tick t)
  | .modscaleGlobalSet => (st, .text tick t)
  | .otherText => (st, .text tick t)

/-- One pass of the meta-event scan over a track (first loop of
midi_read_infile_arguments): updates lastEvent, handles RPN bookkeeping
and the BENDR rewrite, resets note-off velocities to the INIT marker,
records whether an MSB_VOLUME controller was seen (vinit), and
dispatches recognised text payloads.  done is the already-processed
prefix; the channel for a directive is detected on the current state of
the whole track, as trk_get_channel_num(mtrk) does in the source. -/
def scan_track_go (st : ScanState) (vinit : Bool) (done : List MidiEv) :
    List MidiEv → ScanState × Bool × List MidiEv
  | [] => (st, vinit, done)
  | e :: rest =>
    let st0 := {st with lastEvent := max st.lastEvent e.tick}
    match e with
    | .text tick t =>
      let chan := trk_get_channel_num (done ++ e :: rest)
      let r := scan_text st0 chan tick t
      scan_track_go r.1 vinit (done ++ [r.2]) rest
    | .controller tick c k v =>
      if k = MIDI_CC_LSB_RPN then
        scan_track_go {st0 with lsbRpn := v} vinit (done ++ [e]) rest
      else if k = MIDI_CC_MSB_RPN then
        scan_track_go {st0 with msbRpn := v} vinit (done ++ [e]) rest
      else if k = MIDI_CC_MSB_DATA_ENTRY ∧ st0.msbRpn = 0 ∧ st0.lsbRpn = 0 then
        scan_track_go st0 vinit (done ++ [.controller tick c MIDI_CC_EX_BENDR v]) rest
      else if k = MIDI_CC_MSB_VOLUME then
        scan_track_go st0 true (done ++ [e]) rest
      else
        scan_track_go st0 vinit (done ++ [e]) rest
    | .noteoff tick c key _ =>
      scan_track_go st0 vinit (done ++ [.noteoff tick c key MIDI_NOTE_PARSE_INIT]) rest
    | _ => scan_track_go st0 vinit (done ++ [e]) rest

/-- Insertion phase of midi_read_infile_arguments for one track: loop
markers, global MODT/LFOS/LFODL controllers, the default volume and the
track-end dummy.  Note that the LFODL insertion passes arg_lfos as the
controller value, exactly as the source does at line 727. -/
def insert_track_events (st : ScanState) (vinit : Bool) (trk : List MidiEv) :
    List MidiEv :=
  match trk_get_channel_num trk with
  | none => trk
  | some chn =>
    let t1 := if st.foundStart then
        insertLB (.controller st.loopStart chn MIDI_CC_EX_LOOP EX_LOOP_START) trk
      else trk
    let t2 := if st.foundEnd then
        insertUB (.controller st.loopEnd chn MIDI_CC_EX_LOOP EX_LOOP_END) t1
      else t1
    let t3 := if st.args.modtGlobal then
        insertUB (.controller 0 chn MIDI_CC_EX_MODT st.args.modt) t2
      else t2
    let t4 := if st.args.lfosGlobal then
        insertUB (.controller 0 chn MIDI_CC_EX_LFOS st.args.lfos) t3
      else t3
    let t5 := if st.args.lfodlGlobal then
        insertUB (.controller 0 chn MIDI_CC_EX_LFODL st.args.lfos) t4
      else t4
    let t6 := if vinit then t5 else
        insertUB (.controller 0 chn MIDI_CC_MSB_VOLUME 127) t5
    insertUB (.dummy st.lastEvent) t6

/-- midi_read_infile_arguments: scan all tracks (sharing the scan state,
including the RPN pair, across tracks as the source's loop does), then
run the per-track insertion phase with the final state.  Also returns
the final scan state for use by later reasoning. -/
def midi_read_infile_arguments (args : ScanArgs) (tracks : List (List MidiEv)) :
    ScanState × List (List MidiEv) :=
  let p1 := tracks.foldl
    (fun acc trk =>
      let r := scan_track_go acc.1 false [] trk
      (r.1, acc.2 ++ [(r.2.1, r.2.2)]))
    (({args := args} : ScanState), ([] : List (Bool × List MidiEv)))
  (p1.1, p1.2.map (fun pr => insert_track_events p1.1 pr.1 pr.2))

/-- Event-type predicates used with the find_next_event_at_tick_index
template of the source (typeid comparisons). -/
def isTempoEv : MidiEv → Bool
  | .tempo _ _ => true
  | _ => false

def isTimesigEv : MidiEv → Bool
  | .timesig _ _ _ => true
  | _ => false

def isProgramEv : MidiEv → Bool
  | .program _ _ _ => true
  | _ => false

def isPitchbendEv : MidiEv → Bool
  | .pitchbend _ _ _ => true
  | _ => false

/-- Controller event with a given controller number (the ctrl template
parameter of find_next_event_at_tick_index). -/
def isCtrlNumEv (k : Nat) : MidiEv → Bool
  | .controller _ _ c _ => c = k
  | _ => false

/-- find_next_event_at_tick_index: scan forward from the event after the
current one; stop unsuccessfully at the first event with a strictly
greater tick; succeed at the first event satisfying the type (and
controller) predicate. -/
def find_next_at_tick (p : MidiEv → Bool) (t : Nat) : List MidiEv → Bool
  | [] => false
  | e :: rest =>
    if t < e.tick then false
    else if p e then true
    else find_next_at_tick p t rest

/-- Hoisting loop of midi_remove_empty_tracks for one track: tempo and
time-signature events move to side queues, their slot is replaced by a
dummy at the same tick. Returns (modified track, tempo queue part,
time-signature queue part). -/
def hoist_track : List MidiEv → List MidiEv × List MidiEv × List MidiEv
  | [] => ([], [], [])
  | e :: rest =>
    let r := hoist_track rest
    match e with
    | .tempo t us => (.dummy t :: r.1, .tempo t us :: r.2.1, r.2.2)
    | .timesig t n d => (.dummy t :: r.1, r.2.1, .timesig t n d :: r.2.2)
    | _ => (e :: r.1, r.2.1, r.2.2)

/-- Stable sort by tick (cppmidi midi_track::sort_events), modelled as
insertion after equal ticks so the original order of equal-tick events
is preserved. -/
def sort_by_tick (l : List MidiEv) : List MidiEv :=
  l.foldl (fun acc e => insertUB e acc) []

/-- Whether a track contains at least one note-on event (tracks without
one are erased by the track pruner). -/
def track_has_noteon (trk : List MidiEv) : Bool :=
  trk.any fun e =>
    match e with
    | .noteon _ _ _ _ => true
    | _ => false

/-- Removal of surplus time-signature events at the same tick (last one
wins), using the find_next_event_at_tick_index template as the source
does. -/
def dedup_timesig : List MidiEv → List MidiEv
  | [] => []
  | e :: rest =>
    if find_next_at_tick isTimesigEv e.tick rest then dedup_timesig rest
    else e :: dedup_timesig rest

/-- midi_remove_empty_tracks: hoist tempo/time-signature events to side
queues, sort the queues by tick, erase tracks without note-ons, collapse
same-tick time signatures, and reinsert both queues into the first
surviving track at lower_bound positions (tempo first). -/
def midi_remove_empty_tracks (tracks : List (List MidiEv)) : List (List MidiEv) :=
  let hs := tracks.map hoist_track
  let tempoQ := sort_by_tick (hs.map (fun r => r.2.1)).flatten
  let timesigQ := sort_by_tick (hs.map (fun r => r.2.2)).flatten
  let kept := (hs.map (fun r => r.1)).filter track_has_noteon
  match kept with
  | [] => []
  | t0 :: rest =>
    let sq := dedup_timesig timesigQ
    let t0a := tempoQ.foldl (fun acc e => insertLB e acc) t0
    let t0b := sq.foldl (fun acc e => insertLB e acc) t0a
    t0b :: rest

/-- Rounding half away from zero on rationals (std::round / std::roundf). -/
def roundQhalf (x : ℚ) : Int :=
  if 0 ≤ x then Int.floor (x + 1/2) else -Int.floor (1/2 - x)

/-- vol_scale of midi_apply_filters in linear (default) mode:
round(vol * expr * mvl / (127 * 128)) clamped to 0..127.  The quotient
n / 16256 is at least 1/32512 away from a tie unless the tie is exactly
representable in binary64, so the double evaluation of the source equals
this exact rounding. -/
def vol_scale_linear (mvl vol expr : Nat) : Nat :=
  min 127 ((vol * expr * mvl + 8128) / 16256)

/-- vel_scale of midi_apply_filters in linear (default) mode: the source
computes clamp(int(double(vel)), 0, 127), i.e. the identity clamped from
above; in particular velocity 0 is NOT lifted to 1, although the comment
above the clamp says it should be.  (The natural curve applies pow(x,10/6)
before the same clamp and likewise maps 0 to 0.) -/
def vel_scale_linear (vel : Nat) : Nat := min vel 127

/-- Per-track loop of midi_apply_filters in linear mode, carrying the
running (volume, expression) pair initialised to (100, 127); q is the
global modulation scale arg_mod_scale. -/
def midi_apply_filters_go (mvl : Nat) (q : ℚ) (volume expression : Nat) :
    List MidiEv → List MidiEv
  | [] => []
  | e :: rest =>
    match e with
    | .controller t c k v =>
      if k = MIDI_CC_MSB_VOLUME then
        .controller t c k (vol_scale_linear mvl v expression) ::
          midi_apply_filters_go mvl q v expression rest
      else if k = MIDI_CC_MSB_EXPRESSION then
        .controller t c MIDI_CC_MSB_VOLUME (vol_scale_linear mvl volume v) ::
          midi_apply_filters_go mvl q volume v rest
      else if k = MIDI_CC_MSB_MOD then
        .controller t c k (clampI (roundQhalf ((v : ℚ) * q)) 0 127).toNat ::
          midi_apply_filters_go mvl q volume expression rest
      else e :: midi_apply_filters_go mvl q volume expression rest
    | .noteon t c key vel =>
      .noteon t c key (vel_scale_linear vel) ::
        midi_apply_filters_go mvl q volume expression rest
    | _ => e :: midi_apply_filters_go mvl q volume expression rest

/-- midi_apply_filters (linear volume curve, arg_natural = false). -/
def midi_apply_filters (mvl : Nat) (q : ℚ) (tracks : List (List MidiEv)) :
    List (List MidiEv) :=
  tracks.map (midi_apply_filters_go mvl q 100 127)

/-- Per-track snapshot kept by midi_apply_loop_and_state_reset, with the
initial values of the source. -/
structure LoopSnap where
  tempo : Nat := 500000
  voice : Nat := 0
  vol : Nat := 100
  pan : Nat := 64
  bend : Int := 0
  bendr : Nat := 2
  mod : Nat := 0
  modt : Nat := 0
  tune : Nat := 64
  prio : Nat := 0
  deriving DecidableEq, Repr

/-- The ten state-restoration events spliced in before a LOOP_END, in
the order the source emplaces them. -/
def restore_events (tick ch : Nat) (s : LoopSnap) : List MidiEv :=
  [.tempo tick s.tempo,
   .program tick ch s.voice,
   .controller tick ch MIDI_CC_MSB_VOLUME s.vol,
   .controller tick ch MIDI_CC_MSB_PAN s.pan,
   .pitchbend tick ch s.bend,
   .controller tick ch MIDI_CC_EX_BENDR s.bendr,
   .controller tick ch MIDI_CC_MSB_MOD s.mod,
   .controller tick ch MIDI_CC_EX_MODT s.modt,
   .controller tick ch MIDI_CC_EX_TUNE s.tune,
   .controller tick ch MIDI_CC_EX_PRIO s.prio]

/-- Per-track loop of midi_apply_loop_and_state_reset.  Every snapshot
update is guarded by the tick being at most the loop-start tick (which
is initialised to 0xFFFFFFFF and set by a LOOP_START marker); a LOOP_END
at a strictly greater tick splices restore_events in front of itself and
the scan resumes after the LOOP_END. -/
def midi_apply_loop_go (s : LoopSnap) (lst : Nat) : List MidiEv → List MidiEv
  | [] => []
  | e :: rest =>
    match e with
    | .tempo t us =>
      e :: midi_apply_loop_go (if t ≤ lst then {s with tempo := us} else s) lst rest
    | .program t _ p =>
      e :: midi_apply_loop_go (if t ≤ lst then {s with voice := p} else s) lst rest
    | .pitchbend t _ p =>
      e :: midi_apply_loop_go (if t ≤ lst then {s with bend := p} else s) lst rest
    | .controller t c k v =>
      if k = MIDI_CC_MSB_VOLUME then
        e :: midi_apply_loop_go (if t ≤ lst then {s with vol := v} else s) lst rest
      else if k = MIDI_CC_MSB_PAN then
        e :: midi_apply_loop_go (if t ≤ lst then {s with pan := v} else s) lst rest
      else if k = MIDI_CC_EX_BENDR then
        e :: midi_apply_loop_go (if t ≤ lst then {s with bendr := v} else s) lst rest
      else if k = MIDI_CC_MSB_MOD then
        e :: midi_apply_loop_go (if t ≤ lst then {s with mod := v} else s) lst rest
      else if k = MIDI_CC_EX_MODT then
        e :: midi_apply_loop_go (if t ≤ lst then {s with modt := v} else s) lst rest
      else if k = MIDI_CC_EX_TUNE then
        e :: midi_apply_loop_go (if t ≤ lst then {s with tune := v} else s) lst rest
      else if k = MIDI_CC_EX_PRIO then
        e :: midi_apply_loop_go (if t ≤ lst then {s with prio := v} else s) lst rest
      else if k = MIDI_CC_EX_LOOP then
        if v = EX_LOOP_START then
          e :: midi_apply_loop_go s t rest
        else if v = EX_LOOP_END ∧ lst < t then
          restore_events t c s ++ e :: midi_apply_loop_go s lst rest
        else
          e :: midi_apply_loop_go s lst rest
      else e :: midi_apply_loop_go s lst rest
    | _ => e :: midi_apply_loop_go s lst rest

/-- midi_apply_loop_and_state_reset over a whole score. -/
def midi_apply_loop_and_state_reset (tracks : List (List MidiEv)) :
    List (List MidiEv) :=
  tracks.map (fun trk => midi_apply_loop_go {} 4294967295 trk)

/-- Unconditional running-state update, used to phrase what the spec
calls the running state observed at a given point of the track. -/
def loop_state_upd (s : LoopSnap) (e : MidiEv) : LoopSnap :=
  match e with
  | .tempo _ us => {s with tempo := us}
  | .program _ _ p => {s with voice := p}
  | .pitchbend _ _ p => {s with bend := p}
  | .controller _ _ k v =>
    if k = MIDI_CC_MSB_VOLUME then {s with vol := v}
    else if k = MIDI_CC_MSB_PAN then {s with pan := v}
    else if k = MIDI_CC_EX_BENDR then {s with bendr := v}
    else if k = MIDI_CC_MSB_MOD then {s with mod := v}
    else if k = MIDI_CC_EX_MODT then {s with modt := v}
    else if k = MIDI_CC_EX_TUNE then {s with tune := v}
    else if k = MIDI_CC_EX_PRIO then {s with prio := v}
    else s
  | _ => s

/-- Observation used by the loop theorems: whether an event is a
controller on the EX_LOOP controller number, i.e. one of the events that
move the loop-start tick or trigger the splice in the pass. -/
def MidiEv.isLoopCtrl : MidiEv → Bool
  | .controller _ _ k _ => k = MIDI_CC_EX_LOOP
  | _ => false

/-- Encoded tempo used by the redundancy eliminator: round(bpm * 0.5)
clamped to 0..255 with bpm = 60000000 / us_per_beat, modelled by exact
rational rounding (round half away from zero); the binary64 evaluation
of the source agrees at every tempo representable in a MIDI file.  The
us = 0 case cannot occur for a real tempo meta event. -/
def tempo_encode (us : Nat) : Nat := min 255 ((60000000 + us) / (2 * us))

/-- round(p / 128) with rounding half away from zero, exactly as
std::round computes it on the (exactly representable) double p / 128.0. -/
def round_div128 (p : Int) : Int :=
  if 0 ≤ p then ((p.toNat + 64) / 128 : Nat)
  else -(((-p).toNat + 64) / 128 : Nat)

/-- Encoded pitch bend: round(pitch / 128) clamped to -64..+63 (used by
the redundancy eliminator and by bar lowering). -/
def bend_encode (p : Int) : Int := clampI (round_div128 p) (-64) 63

/-- Running values of midi_remove_redundant_events with their initial
values from the source (tempo starts at 150/2 = 75; volume and voice are
gated on first-seen flags). -/
structure RedState where
  tempo : Nat := 75
  voice : Nat := 0
  voiceInit : Bool := false
  vol : Nat := 127
  volInit : Bool := false
  pan : Nat := 64
  bend : Int := 0
  bendr : Nat := 2
  mod : Nat := 0
  modt : Nat := 0
  tune : Nat := 64
  prio : Nat := 0
  deriving DecidableEq, Repr

/-- One step of midi_remove_redundant_events: decide whether the event
is replaced by a dummy at its tick (value equal to the running value, or
shadowed by a later event of the same kind at the same tick) and update
the running values.  Unknown controllers and unknown event types are
erased; time signatures and notes pass through untouched; LOOP
controllers survive exactly when their payload is the 100/101 sentinel. -/
def redun_step (st : RedState) (e : MidiEv) (rest : List MidiEv) :
    MidiEv × RedState :=
  match e with
  | .tempo t us =>
    let ut := tempo_encode us
    if st.tempo = ut ∨ find_next_at_tick isTempoEv t rest then (.dummy t, st)
    else (e, {st with tempo := ut})
  | .program t _ p =>
    if (st.voiceInit ∧ p = st.voice) ∨ find_next_at_tick isProgramEv t rest then
      (.dummy t, st)
    else (e, {st with voiceInit := true, voice := p})
  | .pitchbend t _ p =>
    let ub := bend_encode p
    if st.bend = ub ∨ find_next_at_tick isPitchbendEv t rest then (.dummy t, st)
    else (e, {st with bend := ub})
  | .controller t _ k v =>
    if k = MIDI_CC_MSB_VOLUME then
      if (st.volInit ∧ st.vol = v) ∨ find_next_at_tick (isCtrlNumEv MIDI_CC_MSB_VOLUME) t rest then
        (.dummy t, st)
      else (e, {st with volInit := true, vol := v})
    else if k = MIDI_CC_MSB_PAN then
      if st.pan = v ∨ find_next_at_tick (isCtrlNumEv MIDI_CC_MSB_PAN) t rest then
        (.dummy t, st)
      else (e, {st with pan := v})
    else if k = MIDI_CC_EX_BENDR then
      if st.bendr = v ∨ find_next_at_tick (isCtrlNumEv MIDI_CC_EX_BENDR) t rest then
        (.dummy t, st)
      else (e, {st with bendr := v})
    else if k = MIDI_CC_MSB_MOD then
      if st.mod = v ∨ find_next_at_tick (isCtrlNumEv MIDI_CC_MSB_MOD) t rest then
        (.dummy t, st)
      else (e, {st with mod := v})
    else if k = MIDI_CC_EX_MODT then
      if st.modt = v ∨ find_next_at_tick (isCtrlNumEv MIDI_CC_EX_MODT) t rest then
        (.dummy t, st)
      else (e, {st with modt := v})
    else if k = MIDI_CC_EX_TUNE then
      if st.tune = v ∨ find_next_at_tick (isCtrlNumEv MIDI_CC_EX_TUNE) t rest then
        (.dummy t, st)
      else (e, {st with tune := v})
    else if k = MIDI_CC_EX_LOOP then
      if v ≠ EX_LOOP_START ∧ v ≠ EX_LOOP_END then (.dummy t, st) else (e, st)
    else if k = MIDI_CC_EX_PRIO then
      if st.prio = v ∨ find_next_at_tick (isCtrlNumEv MIDI_CC_EX_PRIO) t rest then
        (.dummy t, st)
      else (e, {st with prio := v})
    else (.dummy t, st)
  | .timesig _ _ _ => (e, st)
  | .noteon _ _ _ _ => (e, st)
  | .noteoff _ _ _ _ => (e, st)
  | .text t _ => (.dummy t, st)
  | .dummy t => (.dummy t, st)

/-- Per-track loop of midi_remove_redundant_events. -/
def midi_remove_redundant_go (st : RedState) : List MidiEv → List MidiEv
  | [] => []
  | e :: rest =>
    let p := redun_step st e rest
    p.1 :: midi_remove_redundant_go p.2 rest

/-- midi_remove_redundant_events over a whole score. -/
def midi_remove_redundant_events (tracks : List (List MidiEv)) :
    List (List MidiEv) :=
  tracks.map (midi_remove_redundant_go {})

/-- Tagged GBA track event (struct agb_ev of the source). -/
inductive AgbEv where
  | wait (len : Nat)
  | loopStart
  | loopEnd
  | prio (n : Nat)
  | tempo (n : Nat)
  | keysh (n : Int)
  | voice (n : Nat)
  | vol (n : Nat)
  | pan (n : Int)
  | bend (n : Int)
  | bendr (n : Nat)
  | lfos (n : Nat)
  | lfodl (n : Nat)
  | mod (n : Nat)
  | modt (n : Nat)
  | tune (n : Int)
  | xcmd (ty par : Nat)
  | eot (key : Nat)
  | tie (key vel : Nat)
  | note (len key vel : Nat)
  deriving DecidableEq, Repr

/-- Emitted byte size of an event (agb_ev::size), used by the
pattern-size heuristic of the deduplicator. -/
def AgbEv.size : AgbEv → Nat
  | .wait _ => 1
  | .loopStart => 0
  | .loopEnd => 5
  | .xcmd _ _ => 3
  | .tie _ _ => 3
  | .note _ _ _ => 4
  | _ => 2

/-- Byte size of a bar (agb_bar::size): sum of its events' sizes. -/
def agb_bar_size (b : List AgbEv) : Nat := (b.map AgbEv.size).sum

/-- Whether a bar contains a LOOP_START or LOOP_END event. -/
def bar_has_loop (b : List AgbEv) : Bool :=
  b.any fun e =>
    match e with
    | .loopStart => true
    | .loopEnd => true
    | _ => false

/-- Entry of the bar table (struct bar of the source). -/
structure bar where
  start_tick : Nat
  num_ticks : Nat
  deriving DecidableEq, Repr

/-- The while loop of the bar-table construction: as long as the current
bar holds at least bar_len ticks, freeze it at bar_len and open a new
bar carrying the overflow.  The source loops forever when bar_len = 0;
that case is excluded before this function is called.  The fuel only
bounds the recursion for the termination checker; it is passed as numT,
which exceeds the number of iterations whenever bar_len is positive. -/
def bar_split_fueled (fuel : Nat) (completed : List bar) (startT numT barLen : Nat) :
    List bar × Nat × Nat :=
  match fuel with
  | 0 => (completed, startT, numT)
  | fuel + 1 =>
    if 0 < barLen ∧ barLen ≤ numT then
      bar_split_fueled fuel (completed ++ [⟨startT, barLen⟩]) (startT + barLen)
        (numT - barLen) barLen
    else (completed, startT, numT)

def bar_split_go (completed : List bar) (startT numT barLen : Nat) :
    List bar × Nat × Nat :=
  bar_split_fueled numT completed startT numT barLen

/-- Main loop of the bar-table construction over track 0: accumulate
tick deltas into the current bar, split full bars off, and on a time
signature update bar_len and (when the current bar is non-empty) freeze
it and open a bar whose start tick is num + num, exactly as the source
computes it.  Returns (completed bars, current start, current num,
current bar_len); none models the non-terminating loop on bar_len = 0. -/
def bar_table_go (completed : List bar) (startT numT barLen prevTick : Nat) :
    List MidiEv → Option (List bar × Nat × Nat × Nat)
  | [] => some (completed, startT, numT, barLen)
  | e :: rest =>
    let numT1 := numT + (e.tick - prevTick)
    if barLen = 0 ∧ barLen ≤ numT1 then none
    else
      let r := bar_split_go completed startT numT1 barLen
      match e with
      | .timesig _ n d =>
        let newLen := n * 96 / 2 ^ d
        if 0 < r.2.2 then
          bar_table_go (r.1 ++ [⟨r.2.1, r.2.2⟩]) (r.2.2 + r.2.2) 0 newLen e.tick rest
        else
          bar_table_go r.1 r.2.1 r.2.2 newLen e.tick rest
      | _ => bar_table_go r.1 r.2.1 r.2.2 barLen e.tick rest

/-- Bar table of midi_to_agb, built from the given track (track 0 of the
score); the trailing bar's num_ticks is forced to the current bar
length. -/
def midi_bar_table (trk : List MidiEv) : Option (List bar) :=
  match bar_table_go [] 0 0 96 0 trk with
  | none => none
  | some r => some (r.1 ++ [⟨r.2.1, r.2.2.2⟩])

/-- Whether an event is a dummy placeholder. -/
def MidiEv.isDummy : MidiEv → Bool
  | .dummy _ => true
  | _ => false

/-- Whether an event is a note-off already marked SHORT (skipped by the
lowering before any wait is generated). -/
def MidiEv.isShortOff : MidiEv → Bool
  | .noteoff _ _ _ v => v = MIDI_NOTE_PARSE_SHORT
  | _ => false

/-- Encoded tempo in bar lowering: the source clamps bpm/2 to 0..255
BEFORE rounding (the redundancy eliminator rounds first); modelled by
the same exact rational rounding as tempo_encode. -/
def tempo_encode_lower (us : Nat) : Nat :=
  if us = 0 then 255
  else if 255 * us < 30000000 then 255
  else (60000000 + us) / (2 * us)

/-- get_note_length: scan forward for the first note-off with the same
key and INIT velocity; returns its index in the remaining list, its tick
and its channel. -/
def find_noteoff (key : Nat) : List MidiEv → Option (Nat × Nat × Nat)
  | [] => none
  | e :: rest =>
    match e with
    | .noteoff t c k v =>
      if k = key ∧ v = MIDI_NOTE_PARSE_INIT then some (0, t, c)
      else (find_noteoff key rest).map fun p => (p.1 + 1, p.2)
    | _ => (find_noteoff key rest).map fun p => (p.1 + 1, p.2)

/-- In-place patch of the matched note-off's velocity marker (the source
mutates the velocity byte of the event it found). -/
def apply_patch (l : List MidiEv) : Option (Nat × MidiEv) → List MidiEv
  | none => l
  | some pr => l.set pr.1 pr.2

/-- Translation of one (non-skipped) event once the waits up to its tick
have been emitted: the big dispatch of midi_to_agb.  Returns the AGB
events to append and an optional patch marking the matched note-off;
none models the die() calls for unmatched note-ons and INIT note-offs. -/
def lower_dispatch (e : MidiEv) (rest : List MidiEv) :
    Option (List AgbEv × Option (Nat × MidiEv)) :=
  match e with
  | .controller _ _ k v =>
    if k = MIDI_CC_EX_LOOP then
      if v = EX_LOOP_START then some ([.loopStart], none)
      else if v = EX_LOOP_END then some ([.loopEnd], none)
      else some ([], none)
    else if k = MIDI_CC_EX_PRIO then some ([.prio v], none)
    else if k = MIDI_CC_MSB_VOLUME then some ([.vol v], none)
    else if k = MIDI_CC_MSB_PAN then some ([.pan (toInt8 ((v : Int) - 64))], none)
    else if k = MIDI_CC_EX_BENDR then some ([.bendr v], none)
    else if k = MIDI_CC_EX_LFOS then some ([.lfos v], none)
    else if k = MIDI_CC_EX_LFODL then some ([.lfodl v], none)
    else if k = MIDI_CC_MSB_MOD then some ([.mod v], none)
    else if k = MIDI_CC_EX_MODT then some ([.modt v], none)
    else if k = MIDI_CC_EX_TUNE then some ([.tune (toInt8 ((v : Int) - 64))], none)
    else some ([], none)
  | .tempo _ us => some ([.tempo (tempo_encode_lower us)], none)
  | .program _ _ p => some ([.voice p], none)
  | .pitchbend _ _ p => some ([.bend (bend_encode p)], none)
  | .noteon t _ key vel =>
    match find_noteoff key rest with
    | none => none
    | some f =>
      let len := f.2.1 - t
      if 96 < len then
        some ([.tie key vel],
          some (f.1, .noteoff f.2.1 f.2.2 key MIDI_NOTE_PARSE_TIE))
      else
        some ([.note (max len 1) key vel],
          some (f.1, .noteoff f.2.1 f.2.2 key MIDI_NOTE_PARSE_SHORT))
  | .noteoff _ _ key vel =>
    if vel = MIDI_NOTE_PARSE_INIT then none
    else if vel = MIDI_NOTE_PARSE_TIE then some ([.eot key], none)
    else some ([], none)
  | _ => some ([], none)

/-- Prepend events to the head bar of a bar list (the head is the
remainder of the bar currently being filled). -/
def prependBar (xs : List AgbEv) : List (List AgbEv) → List (List AgbEv)
  | [] => [xs]
  | h :: t => (xs ++ h) :: t

/-- Per-track loop of midi_to_agb.  The result lists the bars from the
current position on, the head being the remainder of the current bar.
Dummies other than the very last event and SHORT note-offs are skipped;
otherwise waits are emitted up to the event's tick, closing bars at
their num_ticks from the bar table, and the event is translated.  none
models die() calls and the assertions on bar-table exhaustion (also
reached through the uint32 wraparound when an event lies before the
current position). -/
def lower_go (tbl : List bar) (fuel curBar tickCtr : Nat) :
    List MidiEv → Option (List (List AgbEv))
  | [] => some [[]]
  | e :: rest =>
    match fuel with
    | 0 => none
    | fuel + 1 =>
      if e.isDummy ∧ rest ≠ [] then lower_go tbl fuel curBar tickCtr rest
      else if e.isShortOff then lower_go tbl fuel curBar tickCtr rest
      else
        let pos := (tbl.getD curBar ⟨0, 0⟩).start_tick + tickCtr
        if e.tick < pos then none
        else
          let ticksTo := e.tick - pos
          if 0 < ticksTo then
            let numT := (tbl.getD curBar ⟨0, 0⟩).num_ticks
            if numT ≤ tickCtr + ticksTo then
              if curBar + 1 < tbl.length then
                (lower_go tbl fuel (curBar + 1) 0 (e :: rest)).map
                  (fun bs => [AgbEv.wait (numT - tickCtr)] :: bs)
              else none
            else
              match lower_dispatch e rest with
              | none => none
              | some pr =>
                (lower_go tbl fuel curBar (tickCtr + ticksTo)
                    (apply_patch rest pr.2)).map
                  (prependBar (AgbEv.wait ticksTo :: pr.1))
          else
            match lower_dispatch e rest with
            | none => none
            | some pr =>
              (lower_go tbl fuel curBar tickCtr (apply_patch rest pr.2)).map
                (prependBar pr.1)

/-- Per-track lowering of midi_to_agb.  The fuel bound
(evs + 1) * (tbl + 1) strictly exceeds the number of loop steps the
source performs (each step either consumes an event or advances the bar
index, which is bounded by the table length), so the fuel never runs out
on the paths the source completes. -/
def lower_track (tbl : List bar) (evs : List MidiEv) :
    Option (List (List AgbEv)) :=
  lower_go tbl ((evs.length + 1) * (tbl.length + 1)) 0 0 evs

/-- Lowering of all tracks against one bar table, in order. -/
def lower_tracks (tbl : List bar) : List (List MidiEv) → Option (List (List (List AgbEv)))
  | [] => some []
  | t :: ts =>
    match lower_track tbl t, lower_tracks tbl ts with
    | some b, some bs => some (b :: bs)
    | _, _ => none

/-- midi_to_agb: build the bar table from track 0, then lower every
track against it.  An empty score yields an empty song, as the early
return of the source does. -/
def midi_to_agb (tracks : List (List MidiEv)) :
    Option (List (List (List AgbEv))) :=
  match tracks with
  | [] => some []
  | t0 :: _ =>
    match midi_bar_table t0 with
    | none => none
    | some tbl => lower_tracks tbl tracks

/-- Scan of agb_optimize over one bar: first_ev_at_tick points just
after the most recent WAIT; an EOT found later in the same tick group is
rotated to that position, shifting the events in between one slot
right. -/
def agb_optimize_bar_go (fuel : Nat) (evs : List AgbEv) (fet i : Nat) :
    List AgbEv :=
  match fuel with
  | 0 => evs
  | fuel + 1 =>
    if h : i < evs.length then
      match evs.get ⟨i, h⟩ with
      | .wait _ => agb_optimize_bar_go fuel evs (i + 1) (i + 1)
      | .eot k =>
        if i = fet then agb_optimize_bar_go fuel evs (fet + 1) (i + 1)
        else
          agb_optimize_bar_go fuel ((evs.eraseIdx i).insertIdx fet (.eot k))
            (fet + 1) (i + 1)
      | _ => agb_optimize_bar_go fuel evs fet (i + 1)
    else evs

/-- agb_optimize (note-order fixup) over a whole song.  The rotations
preserve the list length, so a fuel of the bar length covers every loop
iteration of the source. -/
def agb_optimize (song : List (List (List AgbEv))) :
    List (List (List AgbEv)) :=
  song.map fun trk => trk.map fun b => agb_optimize_bar_go b.length b 0 0

/-- The compression table of write_agb together with the two per-bar
flags, kept as coordinate lists: table maps a bar (by structural
equality) to the first (track, bar) coordinate it was seen at; isRef
and doesRef collect the coordinates whose flags the fill loop set. -/
structure DedupState where
  table : List (List AgbEv × Nat × Nat) := []
  isRef : List (Nat × Nat) := []
  doesRef : List (Nat × Nat) := []
  deriving DecidableEq, Repr

/-- Lookup by structural bar equality (the unordered_map find with the
agb_bar_ref_hasher equality). -/
def table_lookup (tbl : List (List AgbEv × Nat × Nat)) (k : List AgbEv) :
    Option (Nat × Nat) :=
  (tbl.find? fun p => p.1 == k).map fun p => p.2

/-- One iteration of the compression-table fill loop of write_agb: skip
empty bars, bars of byte size at most 5 and bars containing a loop
marker; insert first-seen bars; on a collision flag the origin as
is_referenced and the current bar as does_reference. -/
def dedup_step (st : DedupState) (c : Nat × Nat) (evts : List AgbEv) :
    DedupState :=
  if evts.length = 0 then st
  else if agb_bar_size evts ≤ 5 then st
  else if bar_has_loop evts then st
  else
    match table_lookup st.table evts with
    | some o => {st with isRef := st.isRef ++ [o], doesRef := st.doesRef ++ [c]}
    | none => {st with table := st.table ++ [(evts, c)]}

/-- The (track, bar) coordinates of a song with their bars, in the
iteration order of the fill loop of write_agb. -/
def dedup_coords (song : List (List (List AgbEv))) :
    List ((Nat × Nat) × List AgbEv) :=
  (song.enum.map fun tp => tp.2.enum.map fun bp => ((tp.1, bp.1), bp.2)).flatten

/-- The full fill loop over all bars of the song, in (track, bar)
order. -/
def dedup_run (song : List (List (List AgbEv))) : DedupState :=
  (dedup_coords song).foldl (fun st cb => dedup_step st cb.1 cb.2) {}

/-- The wait/note length quantisation table of write_event. -/
def len_table_list : List Nat :=
  [0, 1, 2, 3, 4, 5, 6, 7, 8, 9, 10, 11, 12, 13, 14, 15, 16,
   17, 18, 19, 20, 21, 22, 23, 24, 24, 24, 24, 28, 28, 30, 30,
   32, 32, 32, 32, 36, 36, 36, 36, 40, 40, 42, 42, 44, 44, 44,
   44, 48, 48, 48, 48, 52, 52, 54, 54, 56, 56, 56, 56, 60, 60,
   60, 60, 64, 64, 66, 66, 68, 68, 68, 68, 72, 72, 72, 72, 76,
   76, 78, 78, 80, 80, 80, 80, 84, 84, 84, 84, 88, 88, 90, 90,
   92, 92, 92, 92, 96]

def len_table (n : Nat) : Nat := len_table_list.getD n 0

/-- Modulation type names printed by the emitter (1 is tremolo, 2 is
panning, everything else vibrato). -/
inductive ModtName where
  | vib
  | tre
  | pan
  deriving DecidableEq, Repr

def modt_name (v : Nat) : ModtName :=
  if v = 1 then .tre else if v = 2 then .pan else .vib

/-- Last-command kinds of the emitter state machine (agb_state::cmd). -/
inductive Acmd where
  | voice
  | vol
  | pan
  | bend
  | bendr
  | lfos
  | lfodl
  | mod
  | modt
  | tune
  | xcmd
  | eot
  | tie
  | note
  | invalid
  deriving DecidableEq, Repr

/-- Emitter running state (struct agb_state). -/
structure AgbEmitState where
  cmdState : Acmd := .invalid
  noteKey : Nat := 255
  noteVel : Nat := 255
  noteLen : Nat := 0
  mayRepeat : Bool := false
  deriving DecidableEq, Repr

/-- agb_state::reset(). -/
def agb_state_reset (_ : AgbEmitState) : AgbEmitState := {}

/-- One output line of the emitter, abstracting the formatted text to
its semantic content.  Full forms carry the mnemonic, Arg forms are the
operand-only lines produced by repeat elision. -/
inductive Line where
  | waitB (n : Nat)
  | loopLabel (trk : Nat)
  | gotoLoop (trk : Nat)
  | prioB (n : Nat)
  | tempoB (n : Nat)
  | keyshB (n : Int)
  | cmdFull (c : Acmd) (v : Int)
  | cmdArg (c : Acmd) (v : Int)
  | modtFull (m : ModtName)
  | modtArg (m : ModtName)
  | xcmdFull (ty par : Nat)
  | xcmdArg (ty par : Nat)
  | eotFull (k : Option Nat)
  | eotArg (k : Nat)
  | tieFull (k : Option Nat) (v : Option Nat)
  | tieArg (k : Nat) (v : Option Nat)
  | noteFull (base : Nat) (k : Option Nat) (v : Option Nat) (g : Option Nat)
  | noteArg (k : Nat) (v : Option Nat) (g : Option Nat)
  | barLabel (trk barIdx : Nat)
  | pattLine (trk barIdx : Nat)
  | pendB
  | fineB
  | trackLabel (trk : Nat)
  | keyshInit
  | trackComment (chn : Option Nat)
  | commentB
  | headerB (i : Nat)
  | footerB (i : Nat)
  | trackPtr (i : Nat)
  deriving DecidableEq, Repr

/-- WAIT decomposition of write_event: repeated W96, then the quantised
wait from len_table, then the remainder if any.  The fuel bounds the
W96 loop; wait_lines passes the wait length itself, which the loop can
never exhaust. -/
def wait_lines_go (fuel len : Nat) : List Line :=
  match fuel with
  | 0 => []
  | fuel + 1 =>
    if 96 < len then Line.waitB 96 :: wait_lines_go fuel (len - 96)
    else
      let w := len_table len
      if 0 < len - w then [Line.waitB w, Line.waitB (len - w)]
      else [Line.waitB w]

def wait_lines (len : Nat) : List Line := wait_lines_go (len + 1) len

/-- Common shape of the stateful-controller cases of write_event: elide
the opcode when repetition is allowed and the last command matches. -/
def write_stateful (st : AgbEmitState) (c : Acmd) (full arg : Line) :
    List Line × AgbEmitState :=
  if st.mayRepeat ∧ st.cmdState = c then ([arg], st)
  else ([full], {st with mayRepeat := true, cmdState := c})

/-- write_event: emit the lines for one AGB event and update the
emitter state, mirroring every branch of the source's switch. -/
def write_event (st : AgbEmitState) (e : AgbEv) (itrk : Nat) :
    List Line × AgbEmitState :=
  match e with
  | .wait n => (wait_lines n, {st with mayRepeat := true})
  | .loopStart => ([.loopLabel itrk], agb_state_reset st)
  | .loopEnd => ([.gotoLoop itrk], st)
  | .prio n => ([.prioB n], st)
  | .tempo n => ([.tempoB n], st)
  | .keysh n => ([.keyshB n], st)
  | .voice n => write_stateful st .voice (.cmdFull .voice n) (.cmdArg .voice n)
  | .vol n => write_stateful st .vol (.cmdFull .vol n) (.cmdArg .vol n)
  | .pan n => write_stateful st .pan (.cmdFull .pan n) (.cmdArg .pan n)
  | .bend n => write_stateful st .bend (.cmdFull .bend n) (.cmdArg .bend n)
  | .bendr n => write_stateful st .bendr (.cmdFull .bendr n) (.cmdArg .bendr n)
  | .lfos n => write_stateful st .lfos (.cmdFull .lfos n) (.cmdArg .lfos n)
  | .lfodl n => write_stateful st .lfodl (.cmdFull .lfodl n) (.cmdArg .lfodl n)
  | .mod n => write_stateful st .mod (.cmdFull .mod n) (.cmdArg .mod n)
  | .modt n =>
    write_stateful st .modt (.modtFull (modt_name n)) (.modtArg (modt_name n))
  | .tune n => write_stateful st .tune (.cmdFull .tune n) (.cmdArg .tune n)
  | .xcmd ty par => write_stateful st .xcmd (.xcmdFull ty par) (.xcmdArg ty par)
  | .eot key =>
    if st.mayRepeat ∧ st.cmdState = .eot then
      ([.eotArg key], {st with noteKey := key})
    else if st.noteKey = key then
      ([.eotFull none], {st with mayRepeat := true, cmdState := .eot})
    else
      ([.eotFull (some key)],
       {st with noteKey := key, mayRepeat := true, cmdState := .eot})
  | .tie key vel =>
    if st.mayRepeat ∧ st.cmdState = .tie then
      if st.noteVel = vel then
        ([.tieArg key none], {st with noteKey := key, mayRepeat := false})
      else
        ([.tieArg key (some vel)], {st with noteKey := key, noteVel := vel})
    else
      if st.noteKey = key ∧ st.noteVel = vel then
        ([.tieFull none none], {st with mayRepeat := false, cmdState := .tie})
      else if st.noteVel = vel then
        ([.tieFull (some key) none],
         {st with noteKey := key, mayRepeat := false, cmdState := .tie})
      else
        ([.tieFull (some key) (some vel)],
         {st with noteKey := key, noteVel := vel, mayRepeat := false,
                  cmdState := .tie})
  | .note len key vel =>
    if st.mayRepeat ∧ st.cmdState = .note then
      if st.noteVel = vel ∧ st.noteLen = len then
        ([.noteArg key none none], {st with noteKey := key, mayRepeat := false})
      else if st.noteLen = len then
        ([.noteArg key (some vel) none],
         {st with noteKey := key, noteVel := vel, mayRepeat := false})
      else if st.noteLen = len_table len then
        ([.noteArg key (some vel) (some (len - len_table len))],
         {st with noteKey := key, noteVel := vel, noteLen := len_table len})
      else if len = len_table len ∧ st.noteKey = key ∧ st.noteVel = vel then
        ([.noteFull len none none none],
         {st with noteLen := len, mayRepeat := false})
      else if len = len_table len ∧ st.noteVel = vel then
        ([.noteFull len (some key) none none],
         {st with noteLen := len, noteKey := key, mayRepeat := false})
      else if len = len_table len then
        ([.noteFull (len_table len) (some key) (some vel) none],
         {st with noteKey := key, noteVel := vel, noteLen := len,
                  mayRepeat := false})
      else
        ([.noteFull (len_table len) (some key) (some vel)
            (some (len - len_table len))],
         {st with noteKey := key, noteVel := vel, noteLen := len_table len})
    else
      let gt := len - len_table len
      if gt = 0 ∧ st.noteKey = key ∧ st.noteVel = vel then
        ([.noteFull len none none none],
         {st with noteLen := len, mayRepeat := false, cmdState := .note})
      else if gt = 0 ∧ st.noteVel = vel then
        ([.noteFull len (some key) none none],
         {st with noteLen := len, noteKey := key, mayRepeat := false,
                  cmdState := .note})
      else if gt = 0 then
        ([.noteFull len (some key) (some vel) none],
         {st with noteLen := len, noteKey := key, noteVel := vel,
                  mayRepeat := false, cmdState := .note})
      else
        ([.noteFull (len_table len) (some key) (some vel) (some gt)],
         {st with noteLen := len_table len, noteKey := key, noteVel := vel,
                  mayRepeat := true, cmdState := .note})

/-- Emission of the events of one bar, threading the emitter state. -/
def write_bar_events (st : AgbEmitState) (itrk : Nat) :
    List AgbEv → List Line × AgbEmitState
  | [] => ([], st)
  | e :: rest =>
    let r := write_event st e itrk
    let r2 := write_bar_events r.2 itrk rest
    (r.1 ++ r2.1, r2.2)

/-- The per-bar loop of write_agb: a bar comment, a pattern label and a
state reset for referenced bars, either the inline events or a PATT call
to the origin recorded in the compression table, and a PEND after
referenced bars.  A does_reference bar missing from the table would trip
the source's assertion; it cannot occur (see the dedup invariants). -/
def write_track_bars (ds : DedupState) (st : AgbEmitState) (itrk ibar : Nat) :
    List (List AgbEv) → List Line × AgbEmitState
  | [] => ([], st)
  | b :: rest =>
    let isRef := ds.isRef.contains (itrk, ibar)
    let doesRef := ds.doesRef.contains (itrk, ibar)
    let p2 : List Line × AgbEmitState :=
      if isRef then ([Line.barLabel itrk ibar], agb_state_reset st) else ([], st)
    let p3 : List Line × AgbEmitState :=
      if ¬ doesRef then write_bar_events p2.2 itrk b
      else
        match table_lookup ds.table b with
        | some o => ([Line.pattLine o.1 o.2], agb_state_reset p2.2)
        | none => ([], agb_state_reset p2.2)
    let l4 : List Line := if isRef then [Line.pendB] else []
    let r := write_track_bars ds p3.2 itrk (ibar + 1) rest
    (Line.commentB :: p2.1 ++ p3.1 ++ l4 ++ r.1, r.2)

/-- write_agb: fill the compression table, then emit the header, each
track (comment with the detected channel, track label, initial KEYSH,
bars, FINE) and the song footer. -/
def write_agb (midiTracks : List (List MidiEv))
    (song : List (List (List AgbEv))) : List Line :=
  let ds := dedup_run song
  let header := (List.range 10).map Line.headerB
  let body := song.enum.map fun tp =>
    [Line.trackComment (trk_get_channel_num (midiTracks.getD tp.1 [])),
     Line.trackLabel tp.1, Line.keyshInit] ++
      (write_track_bars ds {} tp.1 0 tp.2).1 ++ [Line.fineB]
  let footer := (List.range 6).map Line.footerB ++
    (List.range song.length).map Line.trackPtr
  header ++ body.flatten ++ footer

/-- The full pass pipeline of main() from the interpreter to the
emitted line stream (linear volume curve). -/
def pipeline (args : ScanArgs) (mvl : Nat) (q : ℚ)
    (tracks : List (List MidiEv)) : Option (List Line) :=
  let r1 := midi_read_infile_arguments args tracks
  let t2 := midi_remove_empty_tracks r1.2
  let t3 := midi_apply_filters mvl q t2
  let t4 := midi_apply_loop_and_state_reset t3
  let t5 := midi_remove_redundant_events t4
  match midi_to_agb t5 with
  | none => none
  | some song => some (write_agb t5 (agb_optimize song))

/-- Sum of the WAIT lengths of a bar (observation used by the bar
invariants of the spec). -/
def wait_sum (b : List AgbEv) : Nat :=
  (b.map fun e =>
    match e with
    | .wait n => n
    | _ => 0).sum

/-- Bar of a song at a (track, bar) coordinate. -/
def get_bar (song : List (List (List AgbEv))) (c : Nat × Nat) : List AgbEv :=
  (song.getD c.1 []).getD c.2 []

/-- Invariant of the compression-table fill loop: every table entry
records the bar at its coordinate, is a real candidate (non-empty, more
than 5 bytes, loop-free) and was processed; table keys are pairwise
distinct; every does_reference coordinate is a processed candidate whose
bar is found in the table and which never entered the table itself; and
every is_referenced coordinate is a table value. -/
def DedupInv (song : List (List (List AgbEv))) (processed : List (Nat × Nat))
    (st : DedupState) : Prop :=
  (∀ kc ∈ st.table, get_bar song kc.2 = kc.1 ∧ kc.1 ≠ [] ∧
      5 < agb_bar_size kc.1 ∧ bar_has_loop kc.1 = false ∧ kc.2 ∈ processed) ∧
  List.Pairwise (fun a b => a.1 ≠ b.1) st.table ∧
  (∀ c ∈ st.doesRef,
      (get_bar song c ≠ [] ∧ 5 < agb_bar_size (get_bar song c) ∧
        bar_has_loop (get_bar song c) = false) ∧
      (∃ o, table_lookup st.table (get_bar song c) = some o) ∧
      (∀ k, (k, c) ∉ st.table) ∧ c ∈ processed) ∧
  (∀ c ∈ st.isRef, ∃ k, (k, c) ∈ st.table)

/-! Theorems. -/

/-- C1: the Volume/Velocity Filter does not keep note-on velocities in
1..127.  A note-on of velocity 0 passes through the filter with velocity
0 (vel_scale clamps to 0..127, although the comment above the clamp in
the source says velocity 0 must be avoided because it means note-off). -/
theorem C1_velocity_zero_not_lifted :
    midi_apply_filters 128 1 [[.noteon 0 0 60 0]] = [[.noteon 0 0 60 0]] ∧
      vel_scale_linear 0 = 0 ∧ ¬ (1 ≤ vel_scale_linear 0) := by
  refine ⟨?_, rfl, by decide⟩
  simp [midi_apply_filters, midi_apply_filters_go, vel_scale_linear]

/-- C2: with the lfodl global default configured as 50 and lfos left at
its default 0, the event interpreter inserts the tick-0 LFODL
(controller 26) event with value 0 (arg_lfos) instead of the configured
50 (arg_lfodl). -/
theorem C2_lfodl_global_inserts_lfos_value :
    (midi_read_infile_arguments {lfodl := 50, lfodlGlobal := true}
        [[.noteon 0 0 60 100, .noteoff 24 0 60 64]]).2 =
      [[.noteon 0 0 60 100, .controller 0 0 MIDI_CC_EX_LFODL 0,
        .controller 0 0 MIDI_CC_MSB_VOLUME 127, .noteoff 24 0 60 0,
        .dummy 24]] ∧
    ∀ trk ∈ (midi_read_infile_arguments {lfodl := 50, lfodlGlobal := true}
        [[.noteon 0 0 60 100, .noteoff 24 0 60 64]]).2,
      ∀ e ∈ trk, e ≠ .controller 0 0 MIDI_CC_EX_LFODL 50 := by
  decide

/-- C3: a modt=1 directive on a track whose detected channel is 0 is
discarded (the text event survives unreplaced and no MODT controller
appears), because the source tests channel > 0; the same track moved to
channel 1 gets the replacement controller event. -/
theorem C3_channel_zero_directive_discarded :
    (midi_read_infile_arguments {}
        [[.noteon 0 0 60 100, .text 5 (.modtSet 1), .noteoff 24 0 60 64]]).2 =
      [[.noteon 0 0 60 100, .controller 0 0 MIDI_CC_MSB_VOLUME 127,
        .text 5 (.modtSet 1), .noteoff 24 0 60 0, .dummy 24]] ∧
    (∀ trk ∈ (midi_read_infile_arguments {}
        [[.noteon 0 0 60 100, .text 5 (.modtSet 1), .noteoff 24 0 60 64]]).2,
      ∀ e ∈ trk, isCtrlNumEv MIDI_CC_EX_MODT e = false) ∧
    (midi_read_infile_arguments {}
        [[.noteon 0 1 60 100, .text 5 (.modtSet 1), .noteoff 24 1 60 64]]).2 =
      [[.noteon 0 1 60 100, .controller 0 1 MIDI_CC_MSB_VOLUME 127,
        .controller 5 1 MIDI_CC_EX_MODT 1, .noteoff 24 1 60 0, .dummy 24]] := by
  decide

/-- C4 counterexample: with a volume change to 80 at the loop-start tick
but after the LOOP_START marker, the spliced restoration block carries
volume 80, while the running state observed at the instant just before
the LOOP_START marker has volume 50 — so events at or after the marker
do influence the restored snapshot. -/
theorem C4_counterexample :
    midi_apply_loop_and_state_reset
        [[.controller 0 0 MIDI_CC_MSB_VOLUME 50,
          .controller 10 0 MIDI_CC_EX_LOOP EX_LOOP_START,
          .controller 10 0 MIDI_CC_MSB_VOLUME 80,
          .controller 15 0 MIDI_CC_MSB_VOLUME 99,
          .controller 20 0 MIDI_CC_EX_LOOP EX_LOOP_END]] =
      [[.controller 0 0 MIDI_CC_MSB_VOLUME 50,
        .controller 10 0 MIDI_CC_EX_LOOP EX_LOOP_START,
        .controller 10 0 MIDI_CC_MSB_VOLUME 80,
        .controller 15 0 MIDI_CC_MSB_VOLUME 99] ++
        restore_events 20 0 {vol := 80} ++
        [.controller 20 0 MIDI_CC_EX_LOOP EX_LOOP_END]] ∧
    List.foldl loop_state_upd {} [.controller 0 0 MIDI_CC_MSB_VOLUME 50] =
      ({vol := 50} : LoopSnap) ∧
    ({vol := 80} : LoopSnap) ≠ ({vol := 50} : LoopSnap) := by
  decide

/-- On a non-loop event the pass keeps the event and updates the
snapshot by loop_state_upd exactly when the tick is at most the
loop-start tick. -/
theorem midi_apply_loop_go_step (s : LoopSnap) (lst : Nat) (e : MidiEv)
    (rest : List MidiEv) (he : e.isLoopCtrl = false) :
    midi_apply_loop_go s lst (e :: rest) =
      e :: midi_apply_loop_go
        (if e.tick ≤ lst then loop_state_upd s e else s) lst rest := by
  cases e with
  | tempo t us => simp [midi_apply_loop_go, loop_state_upd, MidiEv.tick]
  | timesig t n d =>
    simp [midi_apply_loop_go, loop_state_upd, MidiEv.tick, ite_self]
  | text t tx => simp [midi_apply_loop_go, loop_state_upd, MidiEv.tick, ite_self]
  | program t c2 p => simp [midi_apply_loop_go, loop_state_upd, MidiEv.tick]
  | controller t c2 k v =>
    simp only [MidiEv.isLoopCtrl, decide_eq_false_iff_not] at he
    simp only [midi_apply_loop_go, loop_state_upd, MidiEv.tick]
    by_cases h1 : k = MIDI_CC_MSB_VOLUME
    · simp [h1, MIDI_CC_MSB_VOLUME, MIDI_CC_MSB_PAN, MIDI_CC_EX_BENDR, MIDI_CC_MSB_MOD,
        MIDI_CC_EX_MODT, MIDI_CC_EX_TUNE, MIDI_CC_EX_PRIO, MIDI_CC_EX_LOOP]
    by_cases h2 : k = MIDI_CC_MSB_PAN
    · simp [h1, h2, MIDI_CC_MSB_VOLUME, MIDI_CC_MSB_PAN, MIDI_CC_EX_BENDR, MIDI_CC_MSB_MOD,
        MIDI_CC_EX_MODT, MIDI_CC_EX_TUNE, MIDI_CC_EX_PRIO, MIDI_CC_EX_LOOP]
    by_cases h3 : k = MIDI_CC_EX_BENDR
    · simp [h1, h2, h3, MIDI_CC_MSB_VOLUME, MIDI_CC_MSB_PAN, MIDI_CC_EX_BENDR, MIDI_CC_MSB_MOD,
        MIDI_CC_EX_MODT, MIDI_CC_EX_TUNE, MIDI_CC_EX_PRIO, MIDI_CC_EX_LOOP]
    by_cases h4 : k = MIDI_CC_MSB_MOD
    · simp [h1, h2, h3, h4, MIDI_CC_MSB_VOLUME, MIDI_CC_MSB_PAN, MIDI_CC_EX_BENDR, MIDI_CC_MSB_MOD,
        MIDI_CC_EX_MODT, MIDI_CC_EX_TUNE, MIDI_CC_EX_PRIO, MIDI_CC_EX_LOOP]
    by_cases h5 : k = MIDI_CC_EX_MODT
    · simp [h1, h2, h3, h4, h5, MIDI_CC_MSB_VOLUME, MIDI_CC_MSB_PAN, MIDI_CC_EX_BENDR, MIDI_CC_MSB_MOD,
        MIDI_CC_EX_MODT, MIDI_CC_EX_TUNE, MIDI_CC_EX_PRIO, MIDI_CC_EX_LOOP]
    by_cases h6 : k = MIDI_CC_EX_TUNE
    · simp [h1, h2, h3, h4, h5, h6, MIDI_CC_MSB_VOLUME, MIDI_CC_MSB_PAN, MIDI_CC_EX_BENDR, MIDI_CC_MSB_MOD,
        MIDI_CC_EX_MODT, MIDI_CC_EX_TUNE, MIDI_CC_EX_PRIO, MIDI_CC_EX_LOOP]
    by_cases h7 : k = MIDI_CC_EX_PRIO
    · simp [h1, h2, h3, h4, h5, h6, h7, MIDI_CC_MSB_VOLUME, MIDI_CC_MSB_PAN, MIDI_CC_EX_BENDR, MIDI_CC_MSB_MOD,
        MIDI_CC_EX_MODT, MIDI_CC_EX_TUNE, MIDI_CC_EX_PRIO, MIDI_CC_EX_LOOP]
    simp [h1, h2, h3, h4, h5, h6, h7, he, ite_self]
  | pitchbend t c2 p => simp [midi_apply_loop_go, loop_state_upd, MidiEv.tick]
  | noteon t c2 k v =>
    simp [midi_apply_loop_go, loop_state_upd, MidiEv.tick, ite_self]
  | noteoff t c2 k v =>
    simp [midi_apply_loop_go, loop_state_upd, MidiEv.tick, ite_self]
  | dummy t => simp [midi_apply_loop_go, loop_state_upd, MidiEv.tick, ite_self]

/-- Scanning a run of non-loop events keeps them and threads the guarded
snapshot fold through them. -/
theorem midi_apply_loop_go_append (lst : Nat) :
    ∀ (evs tail : List MidiEv) (s : LoopSnap),
      (∀ e ∈ evs, e.isLoopCtrl = false) →
      midi_apply_loop_go s lst (evs ++ tail) =
        evs ++ midi_apply_loop_go
          (List.foldl
            (fun s2 e => if e.tick ≤ lst then loop_state_upd s2 e else s2)
            s evs) lst tail := by
  intro evs
  induction evs with
  | nil => intro tail s _; rfl
  | cons e rest ih =>
    intro tail s h
    rw [List.cons_append, midi_apply_loop_go_step _ _ _ _ (h e (by simp))]
    rw [ih tail _ (fun e2 he2 => h e2 (by simp [he2]))]
    rfl

/-- The guarded snapshot fold of the pass equals the unconditional
running-state fold over the events whose tick passes the guard. -/
theorem foldl_guard_filter (lst : Nat) :
    ∀ (evs : List MidiEv) (s : LoopSnap),
      List.foldl
        (fun s2 e => if e.tick ≤ lst then loop_state_upd s2 e else s2)
        s evs =
      List.foldl loop_state_upd s (evs.filter (fun e => e.tick ≤ lst)) := by
  intro evs
  induction evs with
  | nil => intro s; rfl
  | cons e rest ih =>
    intro s
    by_cases h : e.tick ≤ lst
    · simp [List.filter_cons, h, ih]
    · simp [List.filter_cons, h, ih]

/-- A LOOP_START controller is kept and moves the loop-start tick to its
own tick without touching the snapshot. -/
theorem midi_apply_loop_go_start (s : LoopSnap) (lst m c : Nat)
    (rest : List MidiEv) :
    midi_apply_loop_go s lst
        (MidiEv.controller m c MIDI_CC_EX_LOOP EX_LOOP_START :: rest) =
      MidiEv.controller m c MIDI_CC_EX_LOOP EX_LOOP_START ::
        midi_apply_loop_go s m rest := by
  simp [midi_apply_loop_go, MIDI_CC_MSB_VOLUME, MIDI_CC_MSB_PAN,
    MIDI_CC_EX_BENDR, MIDI_CC_MSB_MOD, MIDI_CC_EX_MODT, MIDI_CC_EX_TUNE,
    MIDI_CC_EX_PRIO, MIDI_CC_EX_LOOP, EX_LOOP_START]

/-- A LOOP_END controller at a tick past the loop-start tick splices the
ten restoration events of the current snapshot in front of itself. -/
theorem midi_apply_loop_go_end (s : LoopSnap) (lst tt c : Nat)
    (rest : List MidiEv) (h : lst < tt) :
    midi_apply_loop_go s lst
        (MidiEv.controller tt c MIDI_CC_EX_LOOP EX_LOOP_END :: rest) =
      restore_events tt c s ++
        MidiEv.controller tt c MIDI_CC_EX_LOOP EX_LOOP_END ::
          midi_apply_loop_go s lst rest := by
  simp [midi_apply_loop_go, MIDI_CC_MSB_VOLUME, MIDI_CC_MSB_PAN,
    MIDI_CC_EX_BENDR, MIDI_CC_MSB_MOD, MIDI_CC_EX_MODT, MIDI_CC_EX_TUNE,
    MIDI_CC_EX_PRIO, MIDI_CC_EX_LOOP, EX_LOOP_START, EX_LOOP_END, h]

/-- C4 (amended): for every track shaped as events before a LOOP_START
marker (at ticks at most the marker tick, holding no other loop
controller), events between the markers, and a LOOP_END at a strictly
greater tick, the ten restoration events spliced before the LOOP_END
carry the running state produced by exactly the events whose tick is at
most the loop-start tick — including events located after the
LOOP_START marker at the same tick — while events at strictly greater
ticks are filtered out and do not influence the restored snapshot. -/
theorem C4_amended (pre mid post : List MidiEv) (m t c : Nat)
    (hpre : ∀ e ∈ pre, e.isLoopCtrl = false)
    (hmid : ∀ e ∈ mid, e.isLoopCtrl = false)
    (hpret : ∀ e ∈ pre, e.tick ≤ m)
    (hmt : m < t) (ht32 : t ≤ 4294967295) :
    midi_apply_loop_go {} 4294967295
        (pre ++ MidiEv.controller m c MIDI_CC_EX_LOOP EX_LOOP_START ::
          (mid ++ MidiEv.controller t c MIDI_CC_EX_LOOP EX_LOOP_END :: post)) =
      pre ++ MidiEv.controller m c MIDI_CC_EX_LOOP EX_LOOP_START ::
        (mid ++
          (restore_events t c
              (List.foldl loop_state_upd {}
                ((pre ++ mid).filter (fun e => e.tick ≤ m))) ++
            MidiEv.controller t c MIDI_CC_EX_LOOP EX_LOOP_END ::
              midi_apply_loop_go
                (List.foldl loop_state_upd {}
                  ((pre ++ mid).filter (fun e => e.tick ≤ m))) m post)) := by
  have hpre32 : pre.filter (fun e => e.tick ≤ 4294967295) = pre := by
    rw [List.filter_eq_self]
    intro e he
    have := hpret e he
    simp
    omega
  have hpref : pre.filter (fun e => e.tick ≤ m) = pre := by
    rw [List.filter_eq_self]
    intro e he
    simpa using hpret e he
  have hsnap : List.foldl loop_state_upd ({} : LoopSnap)
      ((pre ++ mid).filter (fun e => e.tick ≤ m)) =
      List.foldl loop_state_upd
        (List.foldl loop_state_upd {} pre)
        (mid.filter (fun e => e.tick ≤ m)) := by
    rw [List.filter_append, hpref, List.foldl_append]
  rw [midi_apply_loop_go_append 4294967295 pre _ {} hpre,
    midi_apply_loop_go_start, midi_apply_loop_go_append m mid _ _ hmid,
    midi_apply_loop_go_end _ _ _ _ _ hmt,
    foldl_guard_filter, foldl_guard_filter, hpre32, hsnap]

/-- Witness for C4 (amended) on a concrete track: a volume before the
marker and two volumes after it, one at the marker tick (restored) and
one later (filtered out). -/
theorem C4_amended_witness :
    (10 : Nat) < 20 ∧ (20 : Nat) ≤ 4294967295 ∧
    midi_apply_loop_go {} 4294967295
        ([MidiEv.controller 0 0 MIDI_CC_MSB_VOLUME 50] ++
          MidiEv.controller 10 0 MIDI_CC_EX_LOOP EX_LOOP_START ::
            ([MidiEv.controller 10 0 MIDI_CC_MSB_VOLUME 80,
              MidiEv.controller 15 0 MIDI_CC_MSB_VOLUME 99] ++
              MidiEv.controller 20 0 MIDI_CC_EX_LOOP EX_LOOP_END :: [])) =
      [MidiEv.controller 0 0 MIDI_CC_MSB_VOLUME 50] ++
        MidiEv.controller 10 0 MIDI_CC_EX_LOOP EX_LOOP_START ::
          ([MidiEv.controller 10 0 MIDI_CC_MSB_VOLUME 80,
            MidiEv.controller 15 0 MIDI_CC_MSB_VOLUME 99] ++
            (restore_events 20 0
                (List.foldl loop_state_upd {}
                  (([MidiEv.controller 0 0 MIDI_CC_MSB_VOLUME 50] ++
                    [MidiEv.controller 10 0 MIDI_CC_MSB_VOLUME 80,
                     MidiEv.controller 15 0 MIDI_CC_MSB_VOLUME 99]).filter
                    (fun e => e.tick ≤ 10))) ++
              MidiEv.controller 20 0 MIDI_CC_EX_LOOP EX_LOOP_END ::
                midi_apply_loop_go
                  (List.foldl loop_state_upd {}
                    (([MidiEv.controller 0 0 MIDI_CC_MSB_VOLUME 50] ++
                      [MidiEv.controller 10 0 MIDI_CC_MSB_VOLUME 80,
                       MidiEv.controller 15 0 MIDI_CC_MSB_VOLUME 99]).filter
                      (fun e => e.tick ≤ 10))) 10 [])) :=
  ⟨by decide, by decide,
   C4_amended [MidiEv.controller 0 0 MIDI_CC_MSB_VOLUME 50]
     [MidiEv.controller 10 0 MIDI_CC_MSB_VOLUME 80,
      MidiEv.controller 15 0 MIDI_CC_MSB_VOLUME 99] [] 10 20 0
     (by decide) (by decide) (by decide) (by decide) (by decide)⟩

/-- C5 counterexample: a track whose events end at tick 24 lowers to a
single (final) bar whose WAIT lengths sum to 24, while the bar table's
entry for that bar has num_ticks = 96 — the final bar is not filled up
to its num_ticks. -/
theorem C5_counterexample :
    midi_bar_table [.noteon 0 0 60 100, .noteoff 24 0 60 MIDI_NOTE_PARSE_INIT,
        .dummy 24] = some [⟨0, 96⟩] ∧
    midi_to_agb [[.noteon 0 0 60 100, .noteoff 24 0 60 MIDI_NOTE_PARSE_INIT,
        .dummy 24]] = some [[[.note 24 60 100, .wait 24]]] ∧
    wait_sum [.note 24 60 100, .wait 24] = 24 ∧ (24 : Nat) ≠ 96 := by
  decide

/-- C7: bar lowering encodes a pitch-bend event with 14-bit value p as a
BEND event with value round(p / 128) (half away from zero) clamped to
-64..+63; in particular +8191 gives +63, -8192 gives -64 and 0 gives 0,
and the encoded value always lies in -64..+63. -/
theorem C7_bend_encoding (p : Int) (h1 : -8192 ≤ p) (h2 : p ≤ 8191) :
    lower_track [⟨0, 96⟩] [.pitchbend 0 0 p, .dummy 0] =
        some [[AgbEv.bend (bend_encode p)]] ∧
    (-64 ≤ bend_encode p ∧ bend_encode p ≤ 63) ∧
    bend_encode 8191 = 63 ∧ bend_encode (-8192) = -64 ∧ bend_encode 0 = 0 := by
  refine ⟨?_, ?_, by decide, by decide, by decide⟩
  · simp [lower_track, lower_go, lower_dispatch, MidiEv.tick, MidiEv.isDummy,
          MidiEv.isShortOff, apply_patch, prependBar]
  · unfold bend_encode clampI
    split_ifs <;> omega

/-- Witness for C7 at the concrete pitch 300. -/
theorem C7_bend_encoding_witness :
    (-8192 ≤ (300 : Int)) ∧ ((300 : Int) ≤ 8191) ∧
      (lower_track [⟨0, 96⟩] [.pitchbend 0 0 300, .dummy 0] =
          some [[AgbEv.bend (bend_encode 300)]] ∧
        (-64 ≤ bend_encode 300 ∧ bend_encode 300 ≤ 63) ∧
        bend_encode 8191 = 63 ∧ bend_encode (-8192) = -64 ∧ bend_encode 0 = 0) :=
  ⟨by decide, by decide, C7_bend_encoding 300 (by decide) (by decide)⟩

/-- A redundancy step either keeps the event or replaces it with a dummy
at the same tick, leaving the running values unchanged in the latter
case. -/
theorem redun_step_keep_or_dummy (st : RedState) (e : MidiEv) (rest : List MidiEv) :
    redun_step st e rest = (.dummy e.tick, st) ∨ (redun_step st e rest).1 = e := by
  cases e <;> simp only [redun_step, MidiEv.tick] <;> (try split_ifs) <;> simp

/-- The redundancy step preserves the tick of the event slot. -/
theorem redun_step_tick (st : RedState) (e : MidiEv) (rest : List MidiEv) :
    (redun_step st e rest).1.tick = e.tick := by
  rcases redun_step_keep_or_dummy st e rest with h | h
  · rw [h]; rfl
  · rw [h]

/-- The same-tick lookahead can only succeed on the output of the
redundancy pass if it succeeds on its input (the pass only turns events
into dummies, which no lookahead predicate matches). -/
theorem find_next_go_mono (p : MidiEv → Bool) (hp : ∀ t0, p (.dummy t0) = false)
    (t : Nat) :
    ∀ (evs : List MidiEv) (st : RedState),
      find_next_at_tick p t (midi_remove_redundant_go st evs) = true →
      find_next_at_tick p t evs = true := by
  intro evs
  induction evs with
  | nil => intro st h; simpa [midi_remove_redundant_go] using h
  | cons e rest ih =>
    intro st h
    rw [midi_remove_redundant_go, find_next_at_tick, redun_step_tick] at h
    rw [find_next_at_tick]
    by_cases ht : t < e.tick
    · rw [if_pos ht] at h; exact absurd h (by simp)
    · rw [if_neg ht] at h ⊢
      by_cases hpe : p (redun_step st e rest).1 = true
      · rcases redun_step_keep_or_dummy st e rest with hk | hk
        · rw [hk] at hpe; rw [hp] at hpe; exact absurd hpe (by simp)
        · rw [hk] at hpe; rw [if_pos hpe]
      · rw [if_neg hpe] at h
        have h2 := ih _ h
        by_cases hpe2 : p e = true
        · rw [if_pos hpe2]
        · rw [if_neg hpe2]; exact h2

/-- Congruence for the dummy-or-keep conditionals of redun_step: when
the event was kept against rest, it is also kept against any list whose
lookahead successes are a subset of rest's, with the same state
update. -/
theorem if_keep_congr {c : Prop} [Decidable c] {f1 f2 : Bool}
    (hmono : f2 = true → f1 = true) (d k : MidiEv × RedState)
    (hne : d.1 ≠ k.1)
    (hkeep : (if c ∨ f1 = true then d else k).1 = k.1) :
    (if c ∨ f2 = true then d else k) = (if c ∨ f1 = true then d else k) := by
  by_cases h1 : c ∨ f1 = true
  · rw [if_pos h1] at hkeep; exact absurd hkeep hne
  · have h2 : ¬(c ∨ f2 = true) := fun hor =>
      hor.elim (fun hA => h1 (Or.inl hA)) (fun hB => h1 (Or.inr (hmono hB)))
    rw [if_neg h1, if_neg h2]

/-- Running the redundancy step a second time, over the processed rest,
reproduces the first step's result. -/
theorem redun_step_second (st st2 : RedState) (e : MidiEv) (rest : List MidiEv) :
    redun_step st (redun_step st e rest).1 (midi_remove_redundant_go st2 rest) =
      redun_step st e rest := by
  rcases redun_step_keep_or_dummy st e rest with h | h
  · rw [h]; rfl
  · rw [h]
    cases e with
    | tempo t us =>
      simp only [redun_step] at h ⊢
      exact if_keep_congr (fun hf => find_next_go_mono _ (fun t0 => rfl) _ rest st2 hf)
        _ _ (by simp) h
    | program t ch pr =>
      simp only [redun_step] at h ⊢
      exact if_keep_congr (fun hf => find_next_go_mono _ (fun t0 => rfl) _ rest st2 hf)
        _ _ (by simp) h
    | pitchbend t ch pv =>
      simp only [redun_step] at h ⊢
      exact if_keep_congr (fun hf => find_next_go_mono _ (fun t0 => rfl) _ rest st2 hf)
        _ _ (by simp) h
    | controller t ch k v =>
      simp only [redun_step] at h ⊢
      by_cases h7 : k = MIDI_CC_MSB_VOLUME
      · simp only [if_pos h7] at h ⊢
        exact if_keep_congr (fun hf => find_next_go_mono _ (fun t0 => rfl) _ rest st2 hf)
          _ _ (by simp) h
      · simp only [if_neg h7] at h ⊢
        by_cases h10 : k = MIDI_CC_MSB_PAN
        · simp only [if_pos h10] at h ⊢
          exact if_keep_congr (fun hf => find_next_go_mono _ (fun t0 => rfl) _ rest st2 hf)
            _ _ (by simp) h
        · simp only [if_neg h10] at h ⊢
          by_cases h20 : k = MIDI_CC_EX_BENDR
          · simp only [if_pos h20] at h ⊢
            exact if_keep_congr (fun hf => find_next_go_mono _ (fun t0 => rfl) _ rest st2 hf)
              _ _ (by simp) h
          · simp only [if_neg h20] at h ⊢
            by_cases h1c : k = MIDI_CC_MSB_MOD
            · simp only [if_pos h1c] at h ⊢
              exact if_keep_congr (fun hf => find_next_go_mono _ (fun t0 => rfl) _ rest st2 hf)
                _ _ (by simp) h
            · simp only [if_neg h1c] at h ⊢
              by_cases h22 : k = MIDI_CC_EX_MODT
              · simp only [if_pos h22] at h ⊢
                exact if_keep_congr (fun hf => find_next_go_mono _ (fun t0 => rfl) _ rest st2 hf)
                  _ _ (by simp) h
              · simp only [if_neg h22] at h ⊢
                by_cases h24 : k = MIDI_CC_EX_TUNE
                · simp only [if_pos h24] at h ⊢
                  exact if_keep_congr (fun hf => find_next_go_mono _ (fun t0 => rfl) _ rest st2 hf)
                    _ _ (by simp) h
                · simp only [if_neg h24] at h ⊢
                  by_cases h30 : k = MIDI_CC_EX_LOOP
                  · simp only [if_pos h30] at h ⊢
                  · simp only [if_neg h30] at h ⊢
                    by_cases h33 : k = MIDI_CC_EX_PRIO
                    · simp only [if_pos h33] at h ⊢
                      exact if_keep_congr
                        (fun hf => find_next_go_mono _ (fun t0 => rfl) _ rest st2 hf)
                        _ _ (by simp) h
                    · simp only [if_neg h33] at h ⊢
    | timesig t n d => rfl
    | noteon t c kk vv => rfl
    | noteoff t c kk vv => rfl
    | text t tx => rfl
    | dummy t => rfl

/-- One track of the redundancy eliminator is idempotent from any
starting state. -/
theorem midi_remove_redundant_go_idem :
    ∀ (evs : List MidiEv) (st : RedState),
      midi_remove_redundant_go st (midi_remove_redundant_go st evs) =
        midi_remove_redundant_go st evs := by
  intro evs
  induction evs with
  | nil => intro st; rfl
  | cons e rest ih =>
    intro st
    simp only [midi_remove_redundant_go]
    rw [redun_step_second]
    exact congrArg _ (ih _)

/-- C8: the Redundancy Eliminator is idempotent: applying
midi_remove_redundant_events twice produces the same score as applying
it once. -/
theorem C8_redundant_events_idempotent (s : List (List MidiEv)) :
    midi_remove_redundant_events (midi_remove_redundant_events s) =
      midi_remove_redundant_events s := by
  unfold midi_remove_redundant_events
  rw [List.map_map]
  exact List.map_congr_left fun trk _ => midi_remove_redundant_go_idem trk {}

/-- Sums of wait lengths distribute over appends. -/
theorem wait_sum_append (xs ys : List AgbEv) :
    wait_sum (xs ++ ys) = wait_sum xs + wait_sum ys := by
  simp [wait_sum]

/-- Splitting a wait off the front of a wait sum. -/
theorem wait_sum_wait_cons (n : Nat) (l : List AgbEv) :
    wait_sum (AgbEv.wait n :: l) = n + wait_sum l := by
  simp [wait_sum]

set_option maxHeartbeats 1000000 in
/-- The event translation of the lowering never emits WAIT events, and
every NOTE it emits has a length in 1..96 (note lengths above 96 become
TIE/EOT pairs, and a length of 0 is clamped up to 1). -/
theorem lower_dispatch_props (e : MidiEv) (rest : List MidiEv)
    (pr : List AgbEv × Option (Nat × MidiEv))
    (h : lower_dispatch e rest = some pr) :
    wait_sum pr.1 = 0 ∧
      ∀ l k v, AgbEv.note l k v ∈ pr.1 → 1 ≤ l ∧ l ≤ 96 := by
  cases e with
  | controller t c k v =>
    simp only [lower_dispatch] at h
    split_ifs at h <;> (cases h; simp [wait_sum])
  | noteon t c key vel =>
    simp only [lower_dispatch] at h
    cases hfind : find_noteoff key rest with
    | none =>
      simp only [hfind] at h
      exact Option.noConfusion h
    | some f =>
      simp only [hfind] at h
      split_ifs at h with hlen
      · cases h; simp [wait_sum]
      · cases h
        constructor
        · simp [wait_sum]
        · intro l k0 v0 hm
          simp at hm
          omega
  | noteoff t c key vel =>
    simp only [lower_dispatch] at h
    split_ifs at h <;> (cases h; simp [wait_sum])
  | tempo t us => cases h; simp [wait_sum]
  | program t c p => cases h; simp [wait_sum]
  | pitchbend t c p => cases h; simp [wait_sum]
  | timesig t n d => cases h; simp [wait_sum]
  | text t tx => cases h; simp [wait_sum]
  | dummy t => cases h; simp [wait_sum]

/-- Case split for membership in a prependBar result. -/
theorem prependBar_cases (xs : List AgbEv) (bs : List (List AgbEv))
    (b : List AgbEv) (h : b ∈ prependBar xs bs) :
    (bs = [] ∧ b = xs) ∨
      ∃ h0 t, bs = h0 :: t ∧ (b = xs ++ h0 ∨ b ∈ t) := by
  cases bs with
  | nil => simp [prependBar] at h; simp [h]
  | cons h0 t =>
    simp [prependBar] at h
    right
    exact ⟨h0, t, rfl, h⟩

/-- prependBar never returns an empty list of bars. -/
theorem prependBar_ne_nil (xs : List AgbEv) (bs : List (List AgbEv)) :
    prependBar xs bs ≠ [] := by
  cases bs <;> simp [prependBar]

/-- Inversion of one step of lower_go on a non-empty event list: the
step is a skip, a bar advance, an in-bar wait followed by the event
translation, or the translation alone when the event is at the current
position. -/
theorem lower_go_cons_inv (tbl : List bar) (n curBar tickCtr : Nat) (e : MidiEv)
    (rest : List MidiEv) (bs : List (List AgbEv))
    (h : lower_go tbl (n + 1) curBar tickCtr (e :: rest) = some bs) :
    ((e.isDummy = true ∧ rest ≠ []) ∨ e.isShortOff = true) ∧
        lower_go tbl n curBar tickCtr rest = some bs ∨
    (∃ bs0,
        bs = [AgbEv.wait ((tbl.getD curBar ⟨0, 0⟩).num_ticks - tickCtr)] :: bs0 ∧
        lower_go tbl n (curBar + 1) 0 (e :: rest) = some bs0 ∧
        curBar + 1 < tbl.length ∧
        (tbl.getD curBar ⟨0, 0⟩).num_ticks ≤
          tickCtr + (e.tick - ((tbl.getD curBar ⟨0, 0⟩).start_tick + tickCtr))) ∨
    (∃ pr bs0,
        lower_dispatch e rest = some pr ∧
        bs = prependBar
          (AgbEv.wait (e.tick - ((tbl.getD curBar ⟨0, 0⟩).start_tick + tickCtr)) ::
            pr.1) bs0 ∧
        lower_go tbl n curBar
          (tickCtr + (e.tick - ((tbl.getD curBar ⟨0, 0⟩).start_tick + tickCtr)))
          (apply_patch rest pr.2) = some bs0 ∧
        0 < e.tick - ((tbl.getD curBar ⟨0, 0⟩).start_tick + tickCtr) ∧
        tickCtr + (e.tick - ((tbl.getD curBar ⟨0, 0⟩).start_tick + tickCtr)) <
          (tbl.getD curBar ⟨0, 0⟩).num_ticks) ∨
    (∃ pr bs0,
        lower_dispatch e rest = some pr ∧
        bs = prependBar pr.1 bs0 ∧
        lower_go tbl n curBar tickCtr (apply_patch rest pr.2) = some bs0 ∧
        e.tick - ((tbl.getD curBar ⟨0, 0⟩).start_tick + tickCtr) = 0) := by
  simp only [lower_go] at h
  by_cases h1 : (e.isDummy = true ∧ ¬rest = [])
  · rw [if_pos h1] at h
    exact Or.inl ⟨Or.inl h1, h⟩
  · rw [if_neg h1] at h
    by_cases h2 : e.isShortOff = true
    · rw [if_pos h2] at h
      exact Or.inl ⟨Or.inr h2, h⟩
    · rw [if_neg h2] at h
      by_cases h3 : e.tick < (tbl.getD curBar ⟨0, 0⟩).start_tick + tickCtr
      · rw [if_pos h3] at h; exact Option.noConfusion h
      · rw [if_neg h3] at h
        by_cases h4 : 0 < e.tick - ((tbl.getD curBar ⟨0, 0⟩).start_tick + tickCtr)
        · rw [if_pos h4] at h
          by_cases h5 : (tbl.getD curBar ⟨0, 0⟩).num_ticks ≤
              tickCtr + (e.tick - ((tbl.getD curBar ⟨0, 0⟩).start_tick + tickCtr))
          · rw [if_pos h5] at h
            by_cases h6 : curBar + 1 < tbl.length
            · rw [if_pos h6] at h
              cases hrec : lower_go tbl n (curBar + 1) 0 (e :: rest) with
              | none => rw [hrec] at h; exact Option.noConfusion h
              | some bs0 =>
                rw [hrec, Option.map_some'] at h
                have hb := (Option.some.inj h).symm
                subst hb
                exact Or.inr (Or.inl ⟨bs0, rfl, rfl, h6, h5⟩)
            · rw [if_neg h6] at h; exact Option.noConfusion h
          · rw [if_neg h5] at h
            cases hd : lower_dispatch e rest with
            | none => rw [hd] at h; exact Option.noConfusion h
            | some pr =>
              rw [hd] at h
              cases hrec : lower_go tbl n curBar
                  (tickCtr + (e.tick - ((tbl.getD curBar ⟨0, 0⟩).start_tick + tickCtr)))
                  (apply_patch rest pr.2) with
              | none => simp only [hrec] at h; exact Option.noConfusion h
              | some bs0 =>
                simp only [hrec, Option.map_some'] at h
                have hb := (Option.some.inj h).symm
                subst hb
                exact Or.inr (Or.inr (Or.inl ⟨pr, bs0, rfl, rfl, hrec, h4, by omega⟩))
        · rw [if_neg h4] at h
          cases hd : lower_dispatch e rest with
          | none => rw [hd] at h; exact Option.noConfusion h
          | some pr =>
            rw [hd] at h
            cases hrec : lower_go tbl n curBar tickCtr (apply_patch rest pr.2) with
            | none => simp only [hrec] at h; exact Option.noConfusion h
            | some bs0 =>
              simp only [hrec, Option.map_some'] at h
              have hb := (Option.some.inj h).symm
              subst hb
              exact Or.inr (Or.inr (Or.inr ⟨pr, bs0, rfl, rfl, hrec, by omega⟩))

/-- Every NOTE event produced anywhere by the per-track lowering has a
length in 1..96, from any fuel, bar index and in-bar offset. -/
theorem lower_go_note_bounds (tbl : List bar) :
    ∀ (fuel : Nat) (evs : List MidiEv) (curBar tickCtr : Nat)
      (bs : List (List AgbEv)),
      lower_go tbl fuel curBar tickCtr evs = some bs →
      ∀ b ∈ bs, ∀ l k v, AgbEv.note l k v ∈ b → 1 ≤ l ∧ l ≤ 96 := by
  intro fuel
  induction fuel with
  | zero =>
    intro evs curBar tickCtr bs h
    cases evs with
    | nil =>
      simp only [lower_go] at h
      cases h
      intro b hb l k v hm
      simp at hb
      subst hb
      simp at hm
    | cons e rest =>
      simp only [lower_go] at h
      exact Option.noConfusion h
  | succ n ih =>
    intro evs curBar tickCtr bs h
    cases evs with
    | nil =>
      simp only [lower_go] at h
      cases h
      intro b hb l k v hm
      simp at hb
      subst hb
      simp at hm
    | cons e rest =>
      rcases lower_go_cons_inv tbl n curBar tickCtr e rest bs h with
        ⟨_, hrec⟩ |
        ⟨bs0, rfl, hrec, _, _⟩ |
        ⟨pr, bs0, hd, rfl, hrec, _, _⟩ |
        ⟨pr, bs0, hd, rfl, hrec, _⟩
      · exact ih rest curBar tickCtr bs hrec
      · intro b hb l k v hm
        rcases List.mem_cons.mp hb with rfl | hb0
        · simp at hm
        · exact ih _ _ _ _ hrec b hb0 l k v hm
      · intro b hb l k v hm
        rcases prependBar_cases _ _ _ hb with ⟨_, rfl⟩ | ⟨h0, t, hbs0, hcase⟩
        · rcases List.mem_cons.mp hm with hm0 | hm0
          · cases hm0
          · exact (lower_dispatch_props e rest pr hd).2 l k v hm0
        · rcases hcase with rfl | hbt
          · rcases List.mem_append.mp hm with hm0 | hm0
            · rcases List.mem_cons.mp hm0 with hm1 | hm1
              · cases hm1
              · exact (lower_dispatch_props e rest pr hd).2 l k v hm1
            · exact ih _ _ _ _ hrec h0 (by simp [hbs0]) l k v hm0
          · exact ih _ _ _ _ hrec b (by simp [hbs0, hbt]) l k v hm
      · intro b hb l k v hm
        rcases prependBar_cases _ _ _ hb with ⟨_, rfl⟩ | ⟨h0, t, hbs0, hcase⟩
        · exact (lower_dispatch_props e rest pr hd).2 l k v hm
        · rcases hcase with rfl | hbt
          · rcases List.mem_append.mp hm with hm0 | hm0
            · exact (lower_dispatch_props e rest pr hd).2 l k v hm0
            · exact ih _ _ _ _ hrec h0 (by simp [hbs0]) l k v hm0
          · exact ih _ _ _ _ hrec b (by simp [hbs0, hbt]) l k v hm

/-- In every track produced by the lowering, every bar except the last
one is closed with WAIT lengths summing exactly to its bar-table
num_ticks, minus the offset already consumed when the recursion entered
the current bar. -/
theorem lower_go_wait_sums (tbl : List bar) :
    ∀ (fuel : Nat) (evs : List MidiEv) (curBar tickCtr : Nat)
      (bs : List (List AgbEv)),
      lower_go tbl fuel curBar tickCtr evs = some bs →
      bs ≠ [] ∧
        ∀ i, i + 1 < bs.length →
          wait_sum (bs.getD i []) =
            (tbl.getD (curBar + i) ⟨0, 0⟩).num_ticks -
              (if i = 0 then tickCtr else 0) := by
  intro fuel
  induction fuel with
  | zero =>
    intro evs curBar tickCtr bs h
    cases evs with
    | nil =>
      simp only [lower_go] at h
      cases h
      refine ⟨by simp, ?_⟩
      intro i hi
      simp at hi
    | cons e rest =>
      simp only [lower_go] at h
      exact Option.noConfusion h
  | succ n ih =>
    intro evs curBar tickCtr bs h
    cases evs with
    | nil =>
      simp only [lower_go] at h
      cases h
      refine ⟨by simp, ?_⟩
      intro i hi
      simp at hi
    | cons e rest =>
      rcases lower_go_cons_inv tbl n curBar tickCtr e rest bs h with
        ⟨_, hrec⟩ |
        ⟨bs0, rfl, hrec, _, _⟩ |
        ⟨pr, bs0, hd, rfl, hrec, hw, hlt⟩ |
        ⟨pr, bs0, hd, rfl, hrec, _⟩
      · exact ih rest curBar tickCtr bs hrec
      · obtain ⟨hne0, hsum0⟩ := ih _ _ _ _ hrec
        refine ⟨by simp, ?_⟩
        intro i hi
        cases i with
        | zero =>
          simp [wait_sum]
        | succ j =>
          have hj : j + 1 < bs0.length := by
            simp at hi
            omega
          have := hsum0 j hj
          have harr : curBar + (j + 1) = curBar + 1 + j := by omega
          simp only [List.getD_cons_succ, harr]
          rcases Nat.eq_zero_or_pos j with rfl | hjpos
          · simpa using this
          · have hjne : j ≠ 0 := by omega
            simpa [hjne] using this
      · obtain ⟨hne0, hsum0⟩ := ih _ _ _ _ hrec
        cases bs0 with
        | nil => exact absurd rfl hne0
        | cons h0 t =>
          refine ⟨by simp [prependBar], ?_⟩
          intro i hi
          simp only [prependBar] at hi ⊢
          cases i with
          | zero =>
            have ht : 0 + 1 < (h0 :: t).length := by
              simp at hi ⊢
              omega
            have h00 := hsum0 0 ht
            have hds := (lower_dispatch_props e rest pr hd).1
            simp only [List.getD_cons_zero, List.cons_append] at h00 ⊢
            rw [wait_sum_wait_cons, wait_sum_append]
            simp at h00 ⊢
            try simp only [List.getD_eq_getElem?_getD] at h00
            try simp only [List.getD_eq_getElem?_getD]
            try simp only [List.getD_eq_getElem?_getD] at hw hlt
            omega
          | succ j =>
            have hj : j + 1 + 1 < (h0 :: t).length := by
              simp at hi ⊢
              omega
            have := hsum0 (j + 1) hj
            simpa using this
      · obtain ⟨hne0, hsum0⟩ := ih _ _ _ _ hrec
        cases bs0 with
        | nil => exact absurd rfl hne0
        | cons h0 t =>
          refine ⟨by simp [prependBar], ?_⟩
          intro i hi
          simp only [prependBar] at hi ⊢
          cases i with
          | zero =>
            have ht : 0 + 1 < (h0 :: t).length := by
              simp at hi ⊢
              omega
            have h00 := hsum0 0 ht
            have hds := (lower_dispatch_props e rest pr hd).1
            simp only [List.getD_cons_zero] at h00 ⊢
            rw [wait_sum_append]
            simp at h00 ⊢
            try simp only [List.getD_eq_getElem?_getD] at h00
            try simp only [List.getD_eq_getElem?_getD]
            try simp only [List.getD_eq_getElem?_getD] at hw hlt
            omega
          | succ j =>
            have hj : j + 1 + 1 < (h0 :: t).length := by
              simp at hi ⊢
              omega
            have := hsum0 (j + 1) hj
            simpa using this

/-- Every track of a lower_tracks result is the lowering of one of the
input tracks. -/
theorem lower_tracks_mem (tbl : List bar) :
    ∀ (ts : List (List MidiEv)) (song : List (List (List AgbEv))),
      lower_tracks tbl ts = some song →
      ∀ tb ∈ song, ∃ trk ∈ ts, lower_track tbl trk = some tb := by
  intro ts
  induction ts with
  | nil =>
    intro song h tb htb
    simp only [lower_tracks] at h
    cases h
    simp at htb
  | cons t rest ih =>
    intro song h tb htb
    simp only [lower_tracks] at h
    cases h1 : lower_track tbl t with
    | none => rw [h1] at h; exact Option.noConfusion h
    | some b =>
      rw [h1] at h
      cases h2 : lower_tracks tbl rest with
      | none => rw [h2] at h; exact Option.noConfusion h
      | some bs =>
        rw [h2] at h
        have hb := (Option.some.inj h).symm
        subst hb
        rcases List.mem_cons.mp htb with rfl | htb0
        · exact ⟨t, by simp, h1⟩
        · obtain ⟨trk, htrk, hlow⟩ := ih bs h2 tb htb0
          exact ⟨trk, by simp [htrk], hlow⟩

/-- C5 (amended): after Bar Lowering, for every track and every bar
index i except the last bar the track reaches, the sum of the WAIT
lengths in bar i equals bar_table[i].num_ticks; the final bar of a track
is exempt (see the counterexample, where it holds fewer waits than its
num_ticks). -/
theorem C5_amended (t0 : List MidiEv) (rest : List (List MidiEv))
    (tbl : List bar) (song : List (List (List AgbEv)))
    (htbl : midi_bar_table t0 = some tbl)
    (hsong : midi_to_agb (t0 :: rest) = some song) :
    ∀ trkBars ∈ song, ∀ i, i + 1 < trkBars.length →
      wait_sum (trkBars.getD i []) = (tbl.getD i ⟨0, 0⟩).num_ticks := by
  intro trkBars htb i hi
  simp only [midi_to_agb, htbl] at hsong
  obtain ⟨trk, _, hlow⟩ := lower_tracks_mem tbl (t0 :: rest) song hsong trkBars htb
  have := (lower_go_wait_sums tbl _ _ _ _ _ hlow).2 i hi
  simpa using this

/-- Witness for C5 (amended) on a two-bar track: the first (non-final)
bar's waits sum to the full 96 ticks of its bar-table entry. -/
theorem C5_amended_witness :
    wait_sum (([[AgbEv.note 24 60 100, AgbEv.wait 96],
        [AgbEv.wait 4, AgbEv.note 20 62 90, AgbEv.wait 20]] :
          List (List AgbEv)).getD 0 []) =
      (([⟨0, 96⟩, ⟨96, 96⟩] : List bar).getD 0 ⟨0, 0⟩).num_ticks :=
  C5_amended
    [.noteon 0 0 60 100, .noteoff 24 0 60 MIDI_NOTE_PARSE_INIT,
     .noteon 100 0 62 90, .noteoff 120 0 62 MIDI_NOTE_PARSE_INIT, .dummy 120]
    [] [⟨0, 96⟩, ⟨96, 96⟩]
    [[[AgbEv.note 24 60 100, AgbEv.wait 96],
      [AgbEv.wait 4, AgbEv.note 20 62 90, AgbEv.wait 20]]]
    (by decide) (by decide)
    [[AgbEv.note 24 60 100, AgbEv.wait 96],
     [AgbEv.wait 4, AgbEv.note 20 62 90, AgbEv.wait 20]]
    (by decide) 0 (by decide)

/-- C10: every NOTE event emitted by Bar Lowering has length 1..96; in
particular a note-on whose matching note-off lies at the same tick
(computed length 0) yields a NOTE of length 1. -/
theorem C10_note_lengths (tbl : List bar) (evs : List MidiEv)
    (bs : List (List AgbEv)) (h : lower_track tbl evs = some bs) :
    (∀ b ∈ bs, ∀ l k v, AgbEv.note l k v ∈ b → 1 ≤ l ∧ l ≤ 96) ∧
    ∀ ch key vel : Nat,
      lower_track [⟨0, 96⟩]
          [.noteon 0 ch key vel, .noteoff 0 ch key MIDI_NOTE_PARSE_INIT,
           .dummy 0] =
        some [[AgbEv.note 1 key vel]] := by
  constructor
  · exact lower_go_note_bounds tbl _ _ _ _ _ h
  · intro ch key vel
    simp [lower_track, lower_go, lower_dispatch, find_noteoff, apply_patch,
          prependBar, MidiEv.tick, MidiEv.isDummy, MidiEv.isShortOff,
          MIDI_NOTE_PARSE_INIT, MIDI_NOTE_PARSE_SHORT, MIDI_NOTE_PARSE_TIE]

/-- Witness for C10 on the single zero-length note. -/
theorem C10_note_lengths_witness :
    (1 ≤ 1 ∧ 1 ≤ 96) ∧
      lower_track [⟨0, 96⟩]
          [.noteon 0 3 60 100, .noteoff 0 3 60 MIDI_NOTE_PARSE_INIT, .dummy 0] =
        some [[AgbEv.note 1 60 100]] :=
  ⟨(C10_note_lengths [⟨0, 96⟩]
      [.noteon 0 3 60 100, .noteoff 0 3 60 MIDI_NOTE_PARSE_INIT, .dummy 0]
      [[AgbEv.note 1 60 100]] (by decide)).1
      [AgbEv.note 1 60 100] (by decide) 1 60 100 (by decide),
   (C10_note_lengths [⟨0, 96⟩]
      [.noteon 0 3 60 100, .noteoff 0 3 60 MIDI_NOTE_PARSE_INIT, .dummy 0]
      [[AgbEv.note 1 60 100]] (by decide)).2 3 60 100⟩

/-- A successful table lookup is preserved when the table grows at the
back (the unordered_map insert of the source never displaces an existing
entry). -/
theorem table_lookup_append_some (tbl x : List (List AgbEv × Nat × Nat))
    (k : List AgbEv) (o : Nat × Nat) (h : table_lookup tbl k = some o) :
    table_lookup (tbl ++ x) k = some o := by
  unfold table_lookup at h ⊢
  rw [List.find?_append]
  cases hf : tbl.find? (fun p => p.1 == k) with
  | none => rw [hf] at h; exact Option.noConfusion h
  | some entry =>
    rw [hf] at h
    simpa using h

/-- A successful lookup names an entry of the table whose key is the
looked-up bar. -/
theorem table_lookup_mem (tbl : List (List AgbEv × Nat × Nat)) (k : List AgbEv)
    (o : Nat × Nat) (h : table_lookup tbl k = some o) : (k, o) ∈ tbl := by
  unfold table_lookup at h
  cases hf : tbl.find? (fun p => p.1 == k) with
  | none => rw [hf] at h; exact Option.noConfusion h
  | some entry =>
    rw [hf] at h
    have h2 : entry.2 = o := by simpa using h
    have h3 : entry.1 = k := by
      have := List.find?_some hf
      simpa using this
    have h4 := List.mem_of_find?_eq_some hf
    obtain ⟨e1, e2⟩ := entry
    simp only at h2 h3
    rw [← h2, ← h3]
    exact h4

/-- The fill-loop invariant only mentions the processed set positively,
so it is monotone in it. -/
theorem DedupInv.mono (song : List (List (List AgbEv)))
    (p1 p2 : List (Nat × Nat)) (st : DedupState)
    (hsub : ∀ c ∈ p1, c ∈ p2) (h : DedupInv song p1 st) :
    DedupInv song p2 st := by
  obtain ⟨h1, h2, h3, h4⟩ := h
  refine ⟨fun kc hkc => ?_, h2, fun c hc => ?_, h4⟩
  · obtain ⟨a, b, c', d, e⟩ := h1 kc hkc
    exact ⟨a, b, c', d, hsub _ e⟩
  · obtain ⟨a, b, c', d⟩ := h3 c hc
    exact ⟨a, b, c', hsub _ d⟩

/-- One fill-loop iteration preserves the invariant when it processes a
fresh coordinate holding its own bar. -/
theorem dedup_step_inv (song : List (List (List AgbEv)))
    (processed : List (Nat × Nat)) (st : DedupState) (c : Nat × Nat)
    (b : List AgbEv) (hInv : DedupInv song processed st)
    (hb : get_bar song c = b) (hnew : c ∉ processed) :
    DedupInv song (processed ++ [c]) (dedup_step st c b) := by
  have hmono : ∀ x ∈ processed, x ∈ processed ++ [c] :=
    fun x hx => List.mem_append_left _ hx
  obtain ⟨h1, h2, h3, h4⟩ := hInv
  unfold dedup_step
  split_ifs with hc1 hc2 hc3
  · exact DedupInv.mono song _ _ _ hmono ⟨h1, h2, h3, h4⟩
  · exact DedupInv.mono song _ _ _ hmono ⟨h1, h2, h3, h4⟩
  · exact DedupInv.mono song _ _ _ hmono ⟨h1, h2, h3, h4⟩
  · cases hlk : table_lookup st.table b with
    | some o =>
      refine ⟨fun kc hkc => ?_, h2, fun c' hc' => ?_, fun c' hc' => ?_⟩
      · obtain ⟨a1, a2, a3, a4, a5⟩ := h1 kc hkc
        exact ⟨a1, a2, a3, a4, hmono _ a5⟩
      · rcases List.mem_append.mp hc' with hold | hcnew
        · obtain ⟨pa, pb, pc, pd⟩ := h3 c' hold
          exact ⟨pa, pb, pc, hmono _ pd⟩
        · simp only [List.mem_singleton] at hcnew
          subst hcnew
          refine ⟨?_, ⟨o, ?_⟩, ?_, by simp⟩
          · rw [hb]
            refine ⟨?_, by omega, ?_⟩
            · intro hnil
              exact hc1 (by simp [hnil])
            · simpa using hc3
          · rw [hb]; exact hlk
          · intro k hk
            exact hnew (h1 (k, c') hk).2.2.2.2
      · rcases List.mem_append.mp hc' with hold | honew
        · exact h4 c' hold
        · simp only [List.mem_singleton] at honew
          subst honew
          exact ⟨b, table_lookup_mem _ _ _ hlk⟩
    | none =>
      have hnone : st.table.find? (fun p => p.1 == b) = none := by
        unfold table_lookup at hlk
        exact Option.map_eq_none'.mp hlk
      refine ⟨fun kc hkc => ?_, ?_, fun c' hc' => ?_, fun c' hc' => ?_⟩
      · rcases List.mem_append.mp hkc with hold | hmem2
        · obtain ⟨a1, a2, a3, a4, a5⟩ := h1 kc hold
          exact ⟨a1, a2, a3, a4, hmono _ a5⟩
        · simp only [List.mem_singleton] at hmem2
          subst hmem2
          refine ⟨hb, ?_, ?_, ?_, by simp⟩
          · show b ≠ []
            intro hnil
            exact hc1 (by simp [hnil])
          · show 5 < agb_bar_size b
            omega
          · show bar_has_loop b = false
            simpa using hc3
      · rw [List.pairwise_append]
        refine ⟨h2, by simp, ?_⟩
        intro a ha b' hb'
        simp only [List.mem_singleton] at hb'
        subst hb'
        have := List.find?_eq_none.mp hnone a ha
        simpa using this
      · obtain ⟨pa, ⟨o, ho⟩, pc, pd⟩ := h3 c' hc'
        refine ⟨pa, ⟨o, table_lookup_append_some _ _ _ _ ho⟩, ?_, hmono _ pd⟩
        intro k hk
        rcases List.mem_append.mp hk with hk1 | hk2
        · exact pc k hk1
        · simp only [List.mem_singleton, Prod.mk.injEq] at hk2
          exact hnew (hk2.2 ▸ pd)
      · obtain ⟨k, hk⟩ := h4 c' hc'
        exact ⟨k, List.mem_append_left _ hk⟩

/-- Folding the fill loop over fresh, correctly-labelled coordinates
preserves the invariant. -/
theorem dedup_fold_inv (song : List (List (List AgbEv))) :
    ∀ (L : List ((Nat × Nat) × List AgbEv)) (processed : List (Nat × Nat))
      (st : DedupState),
      DedupInv song processed st →
      (∀ cb ∈ L, get_bar song cb.1 = cb.2) →
      (∀ cb ∈ L, cb.1 ∉ processed) →
      (L.map Prod.fst).Nodup →
      ∃ p2, DedupInv song p2
        (L.foldl (fun s cb => dedup_step s cb.1 cb.2) st) := by
  intro L
  induction L with
  | nil =>
    intro processed st hInv _ _ _
    exact ⟨processed, hInv⟩
  | cons cb L' ih =>
    intro processed st hInv hget hnewp hnodup
    simp only [List.foldl_cons]
    have hstep := dedup_step_inv song processed st cb.1 cb.2 hInv
      (hget cb (by simp)) (hnewp cb (by simp))
    have hnodup' : (∀ x : List AgbEv, (cb.1, x) ∉ L') ∧
        (List.map Prod.fst L').Nodup := by simpa using hnodup
    refine ih (processed ++ [cb.1]) _ hstep
      (fun cb' h' => hget cb' (by simp [h'])) ?_ hnodup'.2
    intro cb' h' hmem
    rcases List.mem_append.mp hmem with hm1 | hm2
    · exact hnewp cb' (by simp [h']) hm1
    · simp only [List.mem_singleton] at hm2
      have hmem2 : (cb.1, cb'.2) ∈ L' := by
        rw [← hm2, Prod.mk.eta]
        exact h'
      exact absurd hmem2 (hnodup'.1 cb'.2)

/-- Every coordinate listed by dedup_coords carries the bar of the song
at that coordinate. -/
theorem dedup_coords_get (song : List (List (List AgbEv))) :
    ∀ cb ∈ dedup_coords song, get_bar song cb.1 = cb.2 := by
  intro cb hcb
  unfold dedup_coords at hcb
  rw [List.mem_flatten] at hcb
  obtain ⟨l, hl, hcbl⟩ := hcb
  rw [List.mem_map] at hl
  obtain ⟨tp, htp, rfl⟩ := hl
  rw [List.mem_map] at hcbl
  obtain ⟨bp, hbp, rfl⟩ := hcbl
  have h1 : song[tp.1]? = some tp.2 := List.mem_enum_iff_getElem?.mp htp
  have h2 : tp.2[bp.1]? = some bp.2 := List.mem_enum_iff_getElem?.mp hbp
  have h1b : song[tp.1]?.getD [] = tp.2 := by rw [h1]; rfl
  have h2b : tp.2[bp.1]?.getD [] = bp.2 := by rw [h2]; rfl
  simp [get_bar, h1b, h2b]

/-- The coordinates listed by dedup_coords are pairwise distinct. -/
theorem dedup_coords_nodup (song : List (List (List AgbEv))) :
    ((dedup_coords song).map Prod.fst).Nodup := by
  have hform : ((dedup_coords song).map Prod.fst) =
      (song.enum.map (fun tp => tp.2.enum.map (fun bp => (tp.1, bp.1)))).flatten := by
    unfold dedup_coords
    rw [List.map_flatten, List.map_map]
    congr 1
    apply List.map_congr_left
    intro tp _
    dsimp only [Function.comp_def]
    rw [List.map_map]
    rfl
  rw [hform, List.nodup_flatten]
  constructor
  · intro l hl
    rw [List.mem_map] at hl
    obtain ⟨tp, htp, rfl⟩ := hl
    have henum : tp.2.enum.Nodup :=
      List.Nodup.of_map Prod.fst (by rw [List.enum_map_fst]; exact List.nodup_range _)
    apply List.Nodup.map_on ?_ henum
    intro x hx y hy hxy
    have hfst : x.1 = y.1 := by
      have := congrArg Prod.snd hxy
      simpa using this
    have hx1 : tp.2[x.1]? = some x.2 := List.mem_enum_iff_getElem?.mp hx
    have hy1 : tp.2[y.1]? = some y.2 := List.mem_enum_iff_getElem?.mp hy
    rw [hfst, hy1] at hx1
    exact Prod.ext hfst (Option.some.inj hx1).symm
  · rw [List.pairwise_map]
    have hp : List.Pairwise (fun a b => a.1 < b.1) song.enum := by
      have := List.pairwise_lt_range song.length
      rw [← List.enum_map_fst] at this
      exact List.pairwise_map.mp this
    refine hp.imp ?_
    intro a b hab
    intro x hx1 hx2
    rw [List.mem_map] at hx1 hx2
    obtain ⟨p1, _, hp1⟩ := hx1
    obtain ⟨p2, _, hp2⟩ := hx2
    rw [← hp2] at hp1
    injection hp1 with hL hR
    omega

/-- C6: after the deduplicator has run, every does_reference bar is
structurally equal to the origin bar its lookup in the compression table
names; every flagged bar is non-empty, has byte size above 5 and
contains no LOOP_START or LOOP_END; and no bar carries both flags. -/
theorem C6_dedup_invariants (song : List (List (List AgbEv))) :
    (∀ c ∈ (dedup_run song).doesRef,
        ∃ o, table_lookup (dedup_run song).table (get_bar song c) = some o ∧
          get_bar song o = get_bar song c) ∧
    (∀ c, (c ∈ (dedup_run song).isRef ∨ c ∈ (dedup_run song).doesRef) →
        get_bar song c ≠ [] ∧ 5 < agb_bar_size (get_bar song c) ∧
          bar_has_loop (get_bar song c) = false) ∧
    (∀ c, ¬(c ∈ (dedup_run song).isRef ∧ c ∈ (dedup_run song).doesRef)) := by
  have hinit : DedupInv song [] {} := by
    refine ⟨?_, ?_, ?_, ?_⟩ <;> simp [DedupState.table, DedupState.isRef, DedupState.doesRef]
  obtain ⟨p2, hInv⟩ := dedup_fold_inv song (dedup_coords song) [] {} hinit
    (dedup_coords_get song) (by intro cb h hmem; simp at hmem)
    (dedup_coords_nodup song)
  have hrun : dedup_run song =
      (dedup_coords song).foldl (fun s cb => dedup_step s cb.1 cb.2) {} := rfl
  rw [← hrun] at hInv
  obtain ⟨h1, h2, h3, h4⟩ := hInv
  refine ⟨?_, ?_, ?_⟩
  · intro c hc
    obtain ⟨_, ⟨o, ho⟩, _, _⟩ := h3 c hc
    exact ⟨o, ho, (h1 (get_bar song c, o) (table_lookup_mem _ _ _ ho)).1⟩
  · intro c hc
    rcases hc with hc | hc
    · obtain ⟨k, hk⟩ := h4 c hc
      obtain ⟨e1, e2, e3, e4, _⟩ := h1 (k, c) hk
      rw [e1]
      exact ⟨e2, e3, e4⟩
    · exact (h3 c hc).1
  · rintro c ⟨hcis, hcdoes⟩
    obtain ⟨k, hk⟩ := h4 c hcis
    exact (h3 c hcdoes).2.2.1 k hk

/-- Witness for C6 on a song with two identical candidate bars and a
loop bar: bar (0,1) references bar (0,0)'s entry, the flagged bars are
real candidates, and no coordinate is flagged twice. -/
theorem C6_dedup_invariants_witness :
    (∃ o, table_lookup
        (dedup_run [[[AgbEv.note 24 60 100, AgbEv.vol 100, AgbEv.wait 96],
          [AgbEv.note 24 60 100, AgbEv.vol 100, AgbEv.wait 96],
          [AgbEv.loopEnd, AgbEv.note 24 60 100, AgbEv.vol 100,
           AgbEv.wait 96]]]).table
        (get_bar [[[AgbEv.note 24 60 100, AgbEv.vol 100, AgbEv.wait 96],
          [AgbEv.note 24 60 100, AgbEv.vol 100, AgbEv.wait 96],
          [AgbEv.loopEnd, AgbEv.note 24 60 100, AgbEv.vol 100,
           AgbEv.wait 96]]] (0, 1)) = some o ∧
      get_bar [[[AgbEv.note 24 60 100, AgbEv.vol 100, AgbEv.wait 96],
          [AgbEv.note 24 60 100, AgbEv.vol 100, AgbEv.wait 96],
          [AgbEv.loopEnd, AgbEv.note 24 60 100, AgbEv.vol 100,
           AgbEv.wait 96]]] o =
        get_bar [[[AgbEv.note 24 60 100, AgbEv.vol 100, AgbEv.wait 96],
          [AgbEv.note 24 60 100, AgbEv.vol 100, AgbEv.wait 96],
          [AgbEv.loopEnd, AgbEv.note 24 60 100, AgbEv.vol 100,
           AgbEv.wait 96]]] (0, 1)) ∧
    ¬((0, 0) ∈ (dedup_run [[[AgbEv.note 24 60 100, AgbEv.vol 100, AgbEv.wait 96],
          [AgbEv.note 24 60 100, AgbEv.vol 100, AgbEv.wait 96],
          [AgbEv.loopEnd, AgbEv.note 24 60 100, AgbEv.vol 100,
           AgbEv.wait 96]]]).isRef ∧
       (0, 0) ∈ (dedup_run [[[AgbEv.note 24 60 100, AgbEv.vol 100, AgbEv.wait 96],
          [AgbEv.note 24 60 100, AgbEv.vol 100, AgbEv.wait 96],
          [AgbEv.loopEnd, AgbEv.note 24 60 100, AgbEv.vol 100,
           AgbEv.wait 96]]]).doesRef) :=
  ⟨(C6_dedup_invariants _).1 (0, 1) (by decide),
   (C6_dedup_invariants _).2.2 (0, 0)⟩

/-- Membership through upper-bound insertion: insertUB adds exactly the
inserted event. -/
theorem mem_insertUB (e x : MidiEv) (l : List MidiEv) :
    x ∈ insertUB e l ↔ x = e ∨ x ∈ l := by
  induction l with
  | nil => simp [insertUB]
  | cons y ys ih =>
    simp only [insertUB]
    split_ifs with h <;> simp only [List.mem_cons, ih] <;> tauto

/-- Interpreter half of the dangling-loop-end scenario: with foundEnd set
and foundStart clear, insert_track_events still inserts the LOOP_END
controller on the detected channel while introducing no LOOP_START
controller that was not already in the track. -/
theorem interp_loop_end_no_start (st : ScanState) (vinit : Bool)
    (trk : List MidiEv) (chn : Nat) (hend : st.foundEnd = true)
    (hstart : st.foundStart = false)
    (hchn : trk_get_channel_num trk = some chn) :
    MidiEv.controller st.loopEnd chn MIDI_CC_EX_LOOP EX_LOOP_END ∈
      insert_track_events st vinit trk ∧
    ∀ t c, MidiEv.controller t c MIDI_CC_EX_LOOP EX_LOOP_START ∈
        insert_track_events st vinit trk →
      MidiEv.controller t c MIDI_CC_EX_LOOP EX_LOOP_START ∈ trk := by
  constructor
  · simp only [insert_track_events, hchn]
    split_ifs <;> simp_all [mem_insertUB]
  · intro t c hmem
    simp only [insert_track_events, hchn] at hmem
    split_ifs at hmem <;>
      simp_all [mem_insertUB, MIDI_CC_EX_LOOP, MIDI_CC_EX_MODT, MIDI_CC_EX_LFOS,
        MIDI_CC_EX_LFODL, MIDI_CC_MSB_VOLUME, EX_LOOP_START, EX_LOOP_END]

/-- Every line of the wait emission loop is a WAIT line. -/
theorem wait_lines_go_waitB (fuel : Nat) :
    ∀ len l, l ∈ wait_lines_go fuel len → ∃ n, l = Line.waitB n := by
  induction fuel with
  | zero => intro len l h; simp [wait_lines_go] at h
  | succ f ih =>
    intro len l h
    simp only [wait_lines_go] at h
    split_ifs at h with h1 h2
    · rcases List.mem_cons.mp h with h3 | h3
      · exact ⟨96, h3⟩
      · exact ih _ _ h3
    · rcases List.mem_cons.mp h with h3 | h3
      · exact ⟨_, h3⟩
      · rcases List.mem_cons.mp h3 with h4 | h4
        · exact ⟨_, h4⟩
        · simp at h4
    · rcases List.mem_cons.mp h with h3 | h3
      · exact ⟨_, h3⟩
      · simp at h3

/-- A track loop label is printed only for a LOOP_START event. -/
theorem write_event_label (st : AgbEmitState) (e : AgbEv) (itrk i : Nat)
    (h : Line.loopLabel i ∈ (write_event st e itrk).1) : e = AgbEv.loopStart := by
  cases e <;>
    simp only [write_event, write_stateful, wait_lines] at h <;>
    first
      | rfl
      | (obtain ⟨n, hn⟩ := wait_lines_go_waitB _ _ _ h
         exact Line.noConfusion hn)
      | (exfalso; split_ifs at h <;> simp at h)
      | (exfalso; simp at h)

/-- A loop label printed while emitting a bar comes from a LOOP_START
event of that bar. -/
theorem write_bar_events_label (itrk i : Nat) :
    ∀ (evs : List AgbEv) (st : AgbEmitState),
      Line.loopLabel i ∈ (write_bar_events st itrk evs).1 →
      AgbEv.loopStart ∈ evs := by
  intro evs
  induction evs with
  | nil => intro st h; simp [write_bar_events] at h
  | cons e rest ih =>
    intro st h
    simp only [write_bar_events] at h
    rcases List.mem_append.mp h with h1 | h1
    · have he := write_event_label st e itrk i h1
      subst he
      exact List.mem_cons_self _ _
    · exact List.mem_cons_of_mem _ (ih _ h1)

/-- Emitting a bar holding a LOOP_END event prints the GOTO line of the
track loop label. -/
theorem write_bar_events_goto (itrk : Nat) :
    ∀ (evs : List AgbEv) (st : AgbEmitState), AgbEv.loopEnd ∈ evs →
      Line.gotoLoop itrk ∈ (write_bar_events st itrk evs).1 := by
  intro evs
  induction evs with
  | nil => intro st h; simp at h
  | cons e rest ih =>
    intro st h
    simp only [write_bar_events]
    rcases List.mem_cons.mp h with h1 | h1
    · subst h1
      apply List.mem_append_left
      simp [write_event]
    · exact List.mem_append_right _ (ih _ h1)

/-- A loop label printed by the per-bar loop comes from a LOOP_START
event in one of the bars (the PATT, PEND, label and comment lines never
produce one). -/
theorem write_track_bars_label (ds : DedupState) (itrk i : Nat) :
    ∀ (bars : List (List AgbEv)) (st : AgbEmitState) (ibar : Nat),
      Line.loopLabel i ∈ (write_track_bars ds st itrk ibar bars).1 →
      ∃ b ∈ bars, AgbEv.loopStart ∈ b := by
  intro bars
  induction bars with
  | nil => intro st ibar h; simp [write_track_bars] at h
  | cons b rest ih =>
    intro st ibar h
    simp only [write_track_bars] at h
    rcases List.mem_append.mp h with h1 | hr
    · rcases List.mem_append.mp h1 with h2 | h4
      · rcases List.mem_append.mp h2 with h5 | h6
        · rcases List.mem_cons.mp h5 with h7 | h8
          · exact absurd h7 (by simp)
          · exfalso
            split_ifs at h8 <;> simp_all
        · by_cases hd : ds.doesRef.contains (itrk, ibar) = true
          · rw [if_neg (not_not_intro hd)] at h6
            exfalso
            cases htl : table_lookup ds.table b <;> rw [htl] at h6 <;> simp_all
          · rw [if_pos hd] at h6
            exact ⟨b, List.mem_cons_self b rest,
              write_bar_events_label itrk i b _ h6⟩
      · exfalso
        split_ifs at h4 <;> simp_all
    · obtain ⟨b2, hb2, hb3⟩ := ih _ _ hr
      exact ⟨b2, List.mem_cons_of_mem _ hb2, hb3⟩

/-- The per-bar loop prints the GOTO line for every bar that holds a
LOOP_END event and is not replaced by a PATT reference. -/
theorem write_track_bars_goto (ds : DedupState) (itrk : Nat) :
    ∀ (bars : List (List AgbEv)) (st : AgbEmitState) (ibar j : Nat),
      j < bars.length →
      ¬ ds.doesRef.contains (itrk, ibar + j) = true →
      AgbEv.loopEnd ∈ bars.getD j [] →
      Line.gotoLoop itrk ∈ (write_track_bars ds st itrk ibar bars).1 := by
  intro bars
  induction bars with
  | nil => intro st ibar j hj _ _; simp at hj
  | cons b rest ih =>
    intro st ibar j hj hnd hmem
    simp only [write_track_bars]
    cases j with
    | zero =>
      apply List.mem_cons_of_mem
      apply List.mem_append_left
      apply List.mem_append_left
      apply List.mem_append_right
      rw [if_pos (show ¬ ds.doesRef.contains (itrk, ibar) = true from by
        simpa using hnd)]
      rw [List.getD_cons_zero] at hmem
      exact write_bar_events_goto itrk b _ hmem
    | succ j2 =>
      apply List.mem_cons_of_mem
      apply List.mem_append_right
      rw [List.getD_cons_succ] at hmem
      refine ih _ (ibar + 1) j2 (by simpa using hj) ?_ hmem
      have he : ibar + 1 + j2 = ibar + (j2 + 1) := by omega
      rw [he]
      exact hnd

/-- A bar holding a LOOP_END event counts as a loop bar. -/
theorem bar_has_loop_of_loopEnd (b : List AgbEv) (h : AgbEv.loopEnd ∈ b) :
    bar_has_loop b = true := by
  unfold bar_has_loop
  rw [List.any_eq_true]
  exact ⟨_, h, rfl⟩

/-- write_agb prints no track loop label when no bar of the song holds a
LOOP_START event (header, footer and per-track framing lines are never
loop labels). -/
theorem write_agb_no_label (mts : List (List MidiEv))
    (song : List (List (List AgbEv)))
    (hns : ∀ trk ∈ song, ∀ b ∈ trk, AgbEv.loopStart ∉ b) (i : Nat) :
    Line.loopLabel i ∉ write_agb mts song := by
  intro h
  simp only [write_agb] at h
  rcases List.mem_append.mp h with h1 | h1
  · rcases List.mem_append.mp h1 with h2 | h2
    · simp at h2
    · rw [List.mem_flatten] at h2
      obtain ⟨l, hl, hmem⟩ := h2
      rw [List.mem_map] at hl
      obtain ⟨tp, htp, rfl⟩ := hl
      have hmem2 : Line.loopLabel i ∈
          (write_track_bars (dedup_run song) {} tp.1 0 tp.2).1 := by
        simpa using hmem
      obtain ⟨b, hb, hbs⟩ := write_track_bars_label _ tp.1 i tp.2 {} 0 hmem2
      have htr : tp.2 ∈ song := by
        have hg := List.mem_enum_iff_getElem?.mp htp
        exact List.getElem?_mem hg
      exact hns tp.2 htr b hb hbs
  · simp at h1

/-- Bars flagged does_reference by the deduplicator are loop-free, so a
bar holding a loop event is always emitted inline. -/
theorem dedup_run_doesRef_loopfree (song : List (List (List AgbEv))) :
    ∀ c ∈ (dedup_run song).doesRef, bar_has_loop (get_bar song c) = false := by
  have hinit : DedupInv song [] {} := by
    refine ⟨?_, ?_, ?_, ?_⟩ <;>
      simp [DedupState.table, DedupState.isRef, DedupState.doesRef]
  obtain ⟨p2, hInv⟩ := dedup_fold_inv song (dedup_coords song) [] {} hinit
    (dedup_coords_get song) (by intro cb h hmem; simp at hmem)
    (dedup_coords_nodup song)
  intro c hc
  have hrun : dedup_run song =
      (dedup_coords song).foldl (fun s cb => dedup_step s cb.1 cb.2) {} := rfl
  rw [hrun] at hc
  exact (hInv.2.2.1 c hc).1.2.2

/-- write_agb prints the GOTO line of a track whose song data holds a
LOOP_END event in some bar: such a bar is loop-bearing, hence never
replaced by a PATT reference. -/
theorem write_agb_goto (mts : List (List MidiEv)) (song : List (List (List AgbEv)))
    (itrk j : Nat) (trkl : List (List AgbEv)) (htrk : song[itrk]? = some trkl)
    (hj : j < trkl.length) (hmem : AgbEv.loopEnd ∈ trkl.getD j []) :
    Line.gotoLoop itrk ∈ write_agb mts song := by
  have hnd : ¬ (dedup_run song).doesRef.contains (itrk, j) = true := by
    intro hc
    have hm : (itrk, j) ∈ (dedup_run song).doesRef := by simpa using hc
    have hlf := dedup_run_doesRef_loopfree song (itrk, j) hm
    have hgd : song.getD itrk [] = trkl := by
      rw [List.getD_eq_getElem?_getD, htrk]
      rfl
    have hgb : get_bar song (itrk, j) = trkl.getD j [] := by
      simp only [get_bar]
      rw [hgd]
    rw [hgb, bar_has_loop_of_loopEnd _ hmem] at hlf
    exact Bool.noConfusion hlf
  have henum : (itrk, trkl) ∈ song.enum := List.mem_enum_iff_getElem?.mpr htrk
  have hwtb : Line.gotoLoop itrk ∈
      (write_track_bars (dedup_run song) {} itrk 0 trkl).1 :=
    write_track_bars_goto (dedup_run song) itrk trkl {} 0 j hj
      (by simpa using hnd) hmem
  simp only [write_agb]
  apply List.mem_append_left
  apply List.mem_append_right
  rw [List.mem_flatten]
  refine ⟨_, List.mem_map_of_mem _ henum, ?_⟩
  dsimp only
  apply List.mem_append_left
  apply List.mem_append_right
  exact hwtb

/-- C9: a loop-end directive without a loop-start directive still makes
the interpreter insert a LOOP_END marker into every track with a
detected channel (and no LOOP_START), and makes the emitter print the
GOTO line referencing the track loop label while a loop label line is
only ever printed for a LOOP_START event -- so the produced assembly
references a label that is never defined, as the concrete end-to-end
pipeline run shows. -/
theorem C9_loop_end_without_start :
    (∀ (st : ScanState) (vinit : Bool) (trk : List MidiEv) (chn : Nat),
      st.foundEnd = true → st.foundStart = false →
      trk_get_channel_num trk = some chn →
      MidiEv.controller st.loopEnd chn MIDI_CC_EX_LOOP EX_LOOP_END ∈
        insert_track_events st vinit trk ∧
      ∀ t c, MidiEv.controller t c MIDI_CC_EX_LOOP EX_LOOP_START ∈
          insert_track_events st vinit trk →
        MidiEv.controller t c MIDI_CC_EX_LOOP EX_LOOP_START ∈ trk) ∧
    (∀ (mts : List (List MidiEv)) (song : List (List (List AgbEv))),
      (∀ trk ∈ song, ∀ b ∈ trk, AgbEv.loopStart ∉ b) →
      ∀ i, Line.loopLabel i ∉ write_agb mts song) ∧
    (∀ (mts : List (List MidiEv)) (song : List (List (List AgbEv)))
        (itrk j : Nat) (trkl : List (List AgbEv)),
      song[itrk]? = some trkl → j < trkl.length →
      AgbEv.loopEnd ∈ trkl.getD j [] →
      Line.gotoLoop itrk ∈ write_agb mts song) ∧
    (Line.gotoLoop 0 ∈ (pipeline {} 128 1
        [[MidiEv.noteon 0 1 60 100, MidiEv.noteoff 24 1 60 64,
          MidiEv.text 24 MText.loopEndMark]]).getD [] ∧
      Line.loopLabel 0 ∉ (pipeline {} 128 1
        [[MidiEv.noteon 0 1 60 100, MidiEv.noteoff 24 1 60 64,
          MidiEv.text 24 MText.loopEndMark]]).getD []) := by
  refine ⟨?_, ?_, ?_, by decide, by decide⟩
  · intro st vinit trk chn hend hstart hchn
    exact interp_loop_end_no_start st vinit trk chn hend hstart hchn
  · intro mts song hns i
    exact write_agb_no_label mts song hns i
  · intro mts song itrk j trkl htrk hj hmem
    exact write_agb_goto mts song itrk j trkl htrk hj hmem

/-- Witness for C9: concrete interpreter insertion, absence of the loop
label and presence of the GOTO line on a one-track song. -/
theorem C9_loop_end_without_start_witness :
    MidiEv.controller 24 1 MIDI_CC_EX_LOOP EX_LOOP_END ∈
      insert_track_events
        {args := {}, foundEnd := true, loopEnd := 24} false
        [MidiEv.noteon 0 1 60 100, MidiEv.noteoff 24 1 60 64] ∧
    Line.loopLabel 0 ∉ write_agb [] [[[AgbEv.loopEnd, AgbEv.wait 24]]] ∧
    Line.gotoLoop 0 ∈ write_agb [] [[[AgbEv.loopEnd, AgbEv.wait 24]]] :=
  ⟨(C9_loop_end_without_start.1
      {args := {}, foundEnd := true, loopEnd := 24} false
      [MidiEv.noteon 0 1 60 100, MidiEv.noteoff 24 1 60 64] 1
      rfl rfl (by decide)).1,
   C9_loop_end_without_start.2.1 [] [[[AgbEv.loopEnd, AgbEv.wait 24]]]
     (by decide) 0,
   C9_loop_end_without_start.2.2.1 [] [[[AgbEv.loopEnd, AgbEv.wait 24]]]
     0 0 [[AgbEv.loopEnd, AgbEv.wait 24]] (by decide) (by decide) (by decide)⟩

end Midi2Agb
